import Mathlib

/-! # MonmapMonitor: the monitor-map service (src/mon/MonmapMonitor.cc)

A shallow embedding of `MonmapMonitor` and the properties of its command
paths, its identity resolver `_update_whoami` and its sync routine
`update_from_paxos`.

Conventions of the embedding.

* Mutable C++ objects (`Monitor`, `Paxos`, `MonmapMonitor`) are records that
  are passed in and returned.  Calls that leave the service (replying to a
  command, renaming the messenger, elections, shutdown, injecting arguments)
  are appended, in program order, to `Monitor.log`.
* A failed `assert` (or a thrown decode error) ends the run: it is the
  `Result.aborted` outcome, carrying the state reached when the run ended.
* Container sizes and epochs are natural numbers (member counts are taken to
  fit an `int`, so the casts `(int)size()` are the identity); `whoami` is a
  signed integer as in the source; `strtol` and the narrowing to `int` are
  modelled with their ranges.
* The types and helpers that `MonmapMonitor.cc` uses but that live in other
  files (`MonMap`, `Paxos`, the address type, the clock) are modelled from the
  specification or taken as parameters; each such definition says so.
-/

namespace Ceph

/-! ## Base types and constants -/

/-- Modelled from the spec: timestamps (`utime_t`, declared outside the
sources).  The clock value `g_clock.now()` is a parameter of the operations
that read it. -/
abbrev utime_t := Nat

/-- Modelled from the spec: consensus versions (`version_t`, declared outside
the sources). -/
abbrev version_t := Nat

/-- Value of `EEXIST` in errno.h. -/
def EEXIST : Int := 17

/-- Value of `ENOENT` in errno.h. -/
def ENOENT : Int := 2

/-- Value of `EINVAL` in errno.h. -/
def EINVAL : Int := 22

/-- Value of `ERANGE` in errno.h. -/
def ERANGE : Int := 34

/-- Outcome of a run of a member function on state `σ`: it returns a value and
the state it leaves, or it stops at a failed assertion with the state reached. -/
inductive Result (σ : Type) (α : Type) where
  | ret (v : α) (s : σ)
  | aborted (s : σ)

/-- Whether the run returned. -/
def Result.returned {σ α : Type} : Result σ α → Bool
  | Result.ret _ _ => true
  | Result.aborted _ => false

/-- State at the end of the run, returned or aborted. -/
def Result.state {σ α : Type} : Result σ α → σ
  | Result.ret _ s => s
  | Result.aborted s => s

/-! ## MonMap -/

/-- Modelled from the spec: `entity_inst_t` is declared outside the sources at
hand; a member is a pair of ordinal id and network address. -/
structure entity_inst_t (Addr : Type) where
  name : Nat
  addr : Addr
deriving DecidableEq, Repr

/-- Modelled from the spec: the class `MonMap` (MonMap.h) is not among the
sources.  The spec's MembershipMap is an epoch, an ordered member sequence in
which the ordinal id is the position, and a last-changed timestamp. -/
structure MonMap (Addr : Type) where
  epoch : Nat
  mon_inst : List Addr
  last_changed : utime_t
deriving DecidableEq, Repr

/-- Modelled from the spec: unit of the wire encoding, an integer field or an
address field. -/
inductive WireItem (Addr : Type) where
  | num (n : Nat)
  | addr (a : Addr)
deriving DecidableEq, Repr

/-- Modelled from the spec: encoded bytes (`bufferlist`, declared outside the
sources), as the sequence of encoded fields. -/
abbrev bufferlist (Addr : Type) := List (WireItem Addr)

namespace MonMap

variable {Addr : Type}

/-- Modelled from the spec: `MonMap::size`, the member count. -/
def size (m : MonMap Addr) : Nat := m.mon_inst.length

/-- Modelled from the spec: `MonMap::contains`, whether some member is bound
to the address. -/
def contains [DecidableEq Addr] (m : MonMap Addr) (a : Addr) : Bool :=
  decide (a ∈ m.mon_inst)

/-- Modelled from the spec: `MonMap::add` appends the address, which takes the
next ordinal id. -/
def add (m : MonMap Addr) (a : Addr) : MonMap Addr :=
  { m with mon_inst := m.mon_inst ++ [a] }

/-- Modelled from the spec: `MonMap::remove` deletes the entry bound to the
address; every higher id shifts down by one. -/
def remove [DecidableEq Addr] (m : MonMap Addr) (a : Addr) : MonMap Addr :=
  { m with mon_inst := m.mon_inst.erase a }

/-- Modelled from the spec: `MonMap::get_inst`.  Ids are the dense range
`[0, size)`; a lookup outside it (a negative `int` included, which the
unsigned parameter turns into a huge index) has no member to return. -/
def get_inst (m : MonMap Addr) (i : Int) : Option (entity_inst_t Addr) :=
  if 0 ≤ i then (m.mon_inst[i.toNat]?).map (fun a => ⟨i.toNat, a⟩) else none

/-- Modelled from the spec: `MonMap::encode`.  The wire encoding is the epoch,
the ordered address list (ids implicit by position) and the last-changed
timestamp. -/
def encode (m : MonMap Addr) : bufferlist Addr :=
  WireItem.num m.epoch :: WireItem.num m.mon_inst.length ::
    (m.mon_inst.map WireItem.addr ++ [WireItem.num m.last_changed])

/-- Modelled from the spec: reads the `n` address fields of an encoded map. -/
def decode_addrs : Nat → bufferlist Addr → Option (List Addr × bufferlist Addr)
  | 0, rest => some ([], rest)
  | n + 1, WireItem.addr a :: rest =>
    match decode_addrs n rest with
    | some (as, r) => some (a :: as, r)
    | none => none
  | _ + 1, _ => none

/-- Modelled from the spec: `MonMap::decode`, the inverse of `encode`; bytes
that are not an encoded map are a decode error (`none`). -/
def decode : bufferlist Addr → Option (MonMap Addr)
  | WireItem.num e :: WireItem.num n :: rest =>
    match decode_addrs n rest with
    | some (as, WireItem.num t :: _) => some ⟨e, as, t⟩
    | _ => none
  | _ => none

end MonMap

/-! ## Messages, the monitor, the consensus log -/

/-- Modelled from the spec: the command message `MMonCommand` (declared
outside the sources), of which the service reads the token list `cmd`. -/
structure MMonCommand where
  cmd : List String
deriving DecidableEq, Repr

/-- Modelled from the spec: the calls that leave the service (reply envelope,
transport, election coordinator, shutdown), as recorded in `Monitor.log`. -/
inductive Event (Addr : Type) where
  | reply_command (m : MMonCommand) (rc : Int) (rs : String)
      (rdata : bufferlist Addr) (version : version_t)
  | inject_args (inst : entity_inst_t Addr) (args : String)
  | set_myname (mon_id : Int)
  | call_election
  | win_election (epoch : Nat) (quorum : List Int)
  | shutdown
deriving DecidableEq, Repr

/-- Modelled from the spec: the part of `Monitor` (declared outside the
sources) that `MonmapMonitor` reads and writes.  `election_epoch` and `quorum`
are what `get_epoch()` and `get_quorum()` return. -/
structure Monitor (Addr : Type) where
  whoami : Int
  myaddr : Addr
  monmap : MonMap Addr
  election_epoch : Nat
  quorum : List Int
  log : List (Event Addr)
deriving DecidableEq, Repr

/-- Modelled from the spec: the deferred reply
`Monitor::C_Command(mon, m, rc, rs, version)` (declared outside the sources),
delivered when the proposal commits. -/
structure C_Command where
  m : MMonCommand
  rc : Int
  rs : String
  version : version_t
deriving DecidableEq, Repr

/-- Modelled from the spec: the consensus log (`Paxos`) is outside the
sources.  It exposes the current committed version, `read(version)` giving the
bytes or not found, the stash of the latest blob, and the queue of callbacks
waiting for a commit. -/
structure Paxos (Addr : Type) where
  last_committed : version_t
  store : version_t → Option (bufferlist Addr)
  latest_version : version_t
  latest_bl : bufferlist Addr
  waiting_for_commit : List C_Command

/-- The service object (`MonmapMonitor.h` is outside the sources; the fields
are those the member functions use): its monitor `mon`, its consensus log
`paxos`, the pending fork `pending_map` and the cached blob `monmap_bl`. -/
structure MonmapMonitor (Addr : Type) where
  mon : Monitor Addr
  paxos : Paxos Addr
  pending_map : MonMap Addr
  monmap_bl : bufferlist Addr

/-- Text helpers that live outside the sources, taken as parameters:
`entity_addr_t::parse`, the printing of an address, `MonMap::print_summary`
and the printing of the quorum set. -/
structure Env (Addr : Type) where
  parse : String → Addr
  addr_str : Addr → String
  print_summary : MonMap Addr → String
  quorum_str : List Int → String

namespace Monitor

variable {Addr : Type}

/-- Records `mon->reply_command(m, rc, rs, rdata, version)`. -/
def reply_command (mon : Monitor Addr) (m : MMonCommand) (rc : Int) (rs : String)
    (rdata : bufferlist Addr) (version : version_t) : Monitor Addr :=
  { mon with log := mon.log ++ [Event.reply_command m rc rs rdata version] }

/-- Records `mon->inject_args(inst, args)`. -/
def inject_args (mon : Monitor Addr) (inst : entity_inst_t Addr) (args : String) :
    Monitor Addr :=
  { mon with log := mon.log ++ [Event.inject_args inst args] }

/-- Records `mon->messenger->set_myname(entity_name_t::MON(i))`. -/
def set_myname (mon : Monitor Addr) (i : Int) : Monitor Addr :=
  { mon with log := mon.log ++ [Event.set_myname i] }

/-- Records `mon->call_election()`. -/
def call_election (mon : Monitor Addr) : Monitor Addr :=
  { mon with log := mon.log ++ [Event.call_election] }

/-- Records `mon->win_election(epoch, quorum)`. -/
def win_election (mon : Monitor Addr) (epoch : Nat) (q : List Int) : Monitor Addr :=
  { mon with log := mon.log ++ [Event.win_election epoch q] }

/-- Records `mon->shutdown()`. -/
def shutdown (mon : Monitor Addr) : Monitor Addr :=
  { mon with log := mon.log ++ [Event.shutdown] }

end Monitor

/-- The first line of the stream, as `getline(ss, rs)` reads it. -/
def getline (ss : String) : String :=
  String.mk (ss.toList.takeWhile (fun c => c ≠ Char.ofNat 10))

/-! ## strtol -/

/-- The C locale's `isspace`. -/
def isspace (c : Char) : Bool :=
  c.toNat = 32 || (9 ≤ c.toNat && c.toNat ≤ 13)

/-- Largest `long` (64-bit). -/
def LONG_MAX : Int := 2 ^ 63 - 1

/-- Smallest `long` (64-bit). -/
def LONG_MIN : Int := -(2 ^ 63)

/-- The characters `c_str()` exposes: up to the first NUL. -/
def c_str (s : String) : List Char :=
  s.toList.takeWhile (fun c => c ≠ Char.ofNat 0)

/-- Value of the leading run of decimal digits, continuing from `acc`. -/
def strtol_digits : List Char → Nat → Nat
  | [], acc => acc
  | c :: cs, acc =>
    if c.isDigit then strtol_digits cs (acc * 10 + (c.toNat - 48)) else acc

/-- The libc call `strtol(nptr, 0, 10)`, returning the value and the `errno`
it leaves when `errno` was 0 before: leading white space is skipped, an
optional sign is read, then the longest run of decimal digits.  With no digits
the value is 0 and `errno` is left alone (glibc); out of range the value is
clamped and `errno` is `ERANGE`. -/
def strtol (nptr : List Char) : Int × Int :=
  let s1 := nptr.dropWhile isspace
  let neg := s1.head? = some (Char.ofNat 45)
  let s2 := if s1.head? = some (Char.ofNat 45) ∨ s1.head? = some (Char.ofNat 43)
    then s1.tail else s1
  let n : Int := strtol_digits s2 0
  let v : Int := if neg then -n else n
  if v > LONG_MAX then (LONG_MAX, ERANGE)
  else if v < LONG_MIN then (LONG_MIN, ERANGE)
  else (v, 0)

/-- Narrowing of a `long` to `int` (two's complement, 32 bits). -/
def long_to_int (v : Int) : Int := (v + 2 ^ 31) % 2 ^ 32 - 2 ^ 31

/-! ## MonmapMonitor operations -/

section Operations

variable {Addr : Type} [DecidableEq Addr]

/-- Identity resolver, the backward scan of `_update_whoami`:
`for (i = MIN(whoami-1, size-1); i >= 0; i--)`, with `k = i + 1` iterations
left.  Returns the first matching id, `none` when the scan falls off the
start, or stops at a failed lookup. -/
def _update_whoami_scan (mon : Monitor Addr) : Nat → Result (Monitor Addr) (Option Int)
  | 0 => Result.ret none mon
  | k + 1 =>
    match mon.monmap.get_inst (k : Int) with
    | none => Result.aborted mon
    | some inst =>
      if inst.addr = mon.myaddr then Result.ret (some (k : Int)) mon
      else _update_whoami_scan mon k

/-- `MonmapMonitor::_update_whoami` from the point after the first check. -/
def _update_whoami_rest (mon : Monitor Addr) : Result (Monitor Addr) Unit :=
  match _update_whoami_scan mon
      (min (mon.whoami - 1) ((mon.monmap.size : Int) - 1) + 1).toNat with
  | Result.aborted mon1 => Result.aborted mon1
  | Result.ret (some i) mon1 =>
    Result.ret () ({ mon1 with whoami := i }.set_myname i)
  | Result.ret none mon1 =>
    let mon2 := mon1.set_myname (mon1.monmap.size : Int)
    let mon3 := { mon2 with monmap := mon2.monmap.add mon2.myaddr }
    Result.ret () mon3.shutdown

/-- `MonmapMonitor::_update_whoami`. -/
def _update_whoami (mon : Monitor Addr) : Result (Monitor Addr) Unit :=
  if mon.whoami < (mon.monmap.size : Int) then
    match mon.monmap.get_inst mon.whoami with
    | none => Result.aborted mon
    | some inst =>
      if inst.addr = mon.myaddr then Result.ret () mon
      else _update_whoami_rest mon
  else _update_whoami_rest mon

/-- `MonmapMonitor::create_initial`: decodes the bootstrap bytes into the
pending fork. -/
def create_initial (s : MonmapMonitor Addr) (bl : bufferlist Addr) :
    Result (MonmapMonitor Addr) Unit :=
  match MonMap.decode bl with
  | none => Result.aborted s
  | some m => Result.ret () { s with pending_map := m }

/-- `MonmapMonitor::update_from_paxos`. -/
def update_from_paxos (s : MonmapMonitor Addr) : Result (MonmapMonitor Addr) Bool :=
  let paxosv := s.paxos.last_committed
  if paxosv = s.mon.monmap.epoch then Result.ret true s
  else if ¬ (paxosv ≥ s.mon.monmap.epoch) then Result.aborted s
  else
    let original_map_size := s.mon.monmap.size
    let s1 := { s with monmap_bl := [] }
    match s1.paxos.store paxosv with
    | none => Result.aborted s1
    | some bl =>
      let s2 := { s1 with monmap_bl := bl }
      match MonMap.decode s2.monmap_bl with
      | none => Result.aborted s2
      | some newmap =>
        let s3 := { s2 with mon := { s2.mon with monmap := newmap } }
        let s4 := { s3 with paxos :=
          { s3.paxos with latest_version := paxosv, latest_bl := s3.monmap_bl } }
        if original_map_size ≠ s4.mon.monmap.size then
          match _update_whoami s4.mon with
          | Result.aborted mon1 => Result.aborted { s4 with mon := mon1 }
          | Result.ret _ mon1 =>
            if mon1.monmap.size > 1 then
              Result.ret true { s4 with mon := mon1.call_election }
            else
              Result.ret true { s4 with mon := mon1.win_election 1 [mon1.whoami] }
        else Result.ret true s4

/-- `MonmapMonitor::tick`. -/
def tick (s : MonmapMonitor Addr) : Result (MonmapMonitor Addr) Unit :=
  match update_from_paxos s with
  | Result.ret _ s1 => Result.ret () s1
  | Result.aborted s1 => Result.aborted s1

/-- `MonmapMonitor::create_pending`; `now` is `g_clock.now()`. -/
def create_pending (now : utime_t) (s : MonmapMonitor Addr) : MonmapMonitor Addr :=
  let p1 := s.mon.monmap
  let p2 := { p1 with epoch := p1.epoch + 1 }
  { s with pending_map := { p2 with last_changed := now } }

/-- `MonmapMonitor::encode_pending`, returning the bytes appended to `bl`. -/
def encode_pending (s : MonmapMonitor Addr) :
    Result (MonmapMonitor Addr) (bufferlist Addr) :=
  if s.mon.monmap.epoch + 1 = s.pending_map.epoch ∨ s.pending_map.epoch = 1 then
    Result.ret s.pending_map.encode s
  else Result.aborted s

/-- `MonmapMonitor::should_propose`, returning the answer and the delay
(in whole seconds). -/
def should_propose (_s : MonmapMonitor Addr) : Bool × Nat := (true, 0)

/-- `MonmapMonitor::committed`. -/
def committed (s : MonmapMonitor Addr) : MonmapMonitor Addr := s

/-- Tail of `preprocess_command` (`if (r != -1) ... else return false`). -/
def preprocess_command_finish (s : MonmapMonitor Addr) (m : MMonCommand) (r : Int)
    (rdata : bufferlist Addr) (ss : String) : Result (MonmapMonitor Addr) Bool :=
  if r ≠ -1 then
    Result.ret true
      { s with mon := s.mon.reply_command m r (getline ss) rdata s.paxos.last_committed }
  else Result.ret false s

/-- The broadcast loop of `injectargs *`:
`for (i = 0; i < size; i++) inject_args(get_inst(i), args)`, with `fuel`
iterations left. -/
def inject_args_all (args : String) : Nat → Nat → Monitor Addr → Result (Monitor Addr) Unit
  | 0, _, mon => Result.ret () mon
  | fuel + 1, i, mon =>
    match mon.monmap.get_inst (i : Int) with
    | none => Result.aborted mon
    | some inst => inject_args_all args fuel (i + 1) (mon.inject_args inst args)

/-- `MonmapMonitor::preprocess_command`. -/
def preprocess_command (env : Env Addr) (s : MonmapMonitor Addr) (m : MMonCommand) :
    Result (MonmapMonitor Addr) Bool :=
  if m.cmd.length > 1 then
    if m.cmd.getD 1 "" = "stat" then
      preprocess_command_finish s m 0 []
        (env.print_summary s.mon.monmap ++ ", election epoch " ++
          toString s.mon.election_epoch ++ ", quorum " ++ env.quorum_str s.mon.quorum)
    else if m.cmd.length = 2 ∧ m.cmd.getD 1 "" = "getmap" then
      preprocess_command_finish s m 0 s.mon.monmap.encode "got latest monmap"
    else if m.cmd.getD 1 "" = "injectargs" ∧ m.cmd.length = 4 then
      if m.cmd.getD 2 "" = "*" then
        match inject_args_all (m.cmd.getD 3 "") s.mon.monmap.size 0 s.mon with
        | Result.aborted mon1 => Result.aborted { s with mon := mon1 }
        | Result.ret _ mon1 =>
          preprocess_command_finish { s with mon := mon1 } m 0 [] "ok bcast"
      else
        let r := strtol (c_str (m.cmd.getD 2 ""))
        let who := long_to_int r.1
        if r.2 = 0 ∧ who ≥ 0 then
          match s.mon.monmap.get_inst who with
          | none => Result.aborted s
          | some inst =>
            preprocess_command_finish
              { s with mon := s.mon.inject_args inst (m.cmd.getD 3 "") } m 0 [] "ok"
        else preprocess_command_finish s m (-1) [] "specify mon number or *"
    else if m.cmd.getD 1 "" = "add" then Result.ret false s
    else if m.cmd.getD 1 "" = "remove" then Result.ret false s
    else preprocess_command_finish s m (-1) [] ""
  else preprocess_command_finish s m (-1) [] ""

/-- The label `out:` of `prepare_command`: reply with `err`, return false. -/
def prepare_command_out (s : MonmapMonitor Addr) (m : MMonCommand) (err : Int)
    (ss : String) : Bool × MonmapMonitor Addr :=
  (false, { s with mon := s.mon.reply_command m err (getline ss) [] s.paxos.last_committed })

/-- `MonmapMonitor::prepare_command`; `now` is `g_clock.now()`. -/
def prepare_command (env : Env Addr) (now : utime_t) (s : MonmapMonitor Addr)
    (m : MMonCommand) : Bool × MonmapMonitor Addr :=
  if m.cmd.length > 1 then
    if m.cmd.length = 3 ∧ m.cmd.getD 1 "" = "add" then
      let addr := env.parse (m.cmd.getD 2 "")
      if s.pending_map.contains addr then
        prepare_command_out s m (-EEXIST) ("mon " ++ env.addr_str addr ++ " already exists")
      else
        let p1 := s.pending_map.add addr
        let p2 := { p1 with last_changed := now }
        let rs := getline
          ("added mon" ++ toString (p2.size - 1) ++ " at " ++ env.addr_str addr)
        (true, { s with
          pending_map := p2
          paxos := { s.paxos with waiting_for_commit :=
            s.paxos.waiting_for_commit ++ [⟨m, 0, rs, s.paxos.last_committed⟩] } })
    else if m.cmd.length = 3 ∧ m.cmd.getD 1 "" = "remove" then
      let addr := env.parse (m.cmd.getD 2 "")
      if ¬ s.pending_map.contains addr then
        prepare_command_out s m (-ENOENT) ("mon " ++ env.addr_str addr ++ " does not exist")
      else
        let p1 := s.pending_map.remove addr
        let p2 := { p1 with last_changed := now }
        let rs := getline ("removed mon" ++ " at " ++ env.addr_str addr ++
          ", there are now " ++ toString p2.size ++ " monitors")
        (true, { s with
          pending_map := p2
          mon := s.mon.reply_command m 0 rs [] s.paxos.last_committed })
    else prepare_command_out s m (-EINVAL) ("unknown command " ++ m.cmd.getD 1 "")
  else prepare_command_out s m (-EINVAL) "no command?"

end Operations

/-- State of the service once `update_from_paxos` has read the blob `bl` of
the committed version, decoded it to `newmap` and stashed it. -/
def update_from_paxos_synced {Addr : Type} (s : MonmapMonitor Addr) (bl : bufferlist Addr)
    (newmap : MonMap Addr) : MonmapMonitor Addr :=
  { mon := { s.mon with monmap := newmap }
    paxos := { s.paxos with latest_version := s.paxos.last_committed, latest_bl := bl }
    pending_map := s.pending_map
    monmap_bl := bl }

/-! ## Observers used in the statements -/

/-- The value a run returned, if it returned. -/
def Result.value {σ α : Type} : Result σ α → Option α
  | Result.ret v _ => some v
  | Result.aborted _ => none

/-- Whether a recorded call is a reply to a command. -/
def Event.is_reply {Addr : Type} : Event Addr → Bool
  | Event.reply_command _ _ _ _ _ => true
  | _ => false

/-- The ids that the backward scan of `_update_whoami` passes to `get_inst`,
in program order, with `k = i + 1` iterations left: one lookup per iteration,
until a lookup fails or matches or the scan falls off the start. -/
def _update_whoami_scan_lookups {Addr : Type} [DecidableEq Addr] (mon : Monitor Addr) :
    Nat → List Int
  | 0 => []
  | k + 1 =>
    (k : Int) ::
      match mon.monmap.get_inst (k : Int) with
      | none => []
      | some inst =>
        if inst.addr = mon.myaddr then [] else _update_whoami_scan_lookups mon k

/-- The ids that `_update_whoami` passes to `get_inst`, in program order: the
lookup of the first check, made only when `whoami < size`, then those of the
backward scan. -/
def _update_whoami_lookups {Addr : Type} [DecidableEq Addr] (mon : Monitor Addr) :
    List Int :=
  if mon.whoami < (mon.monmap.size : Int) then
    mon.whoami ::
      match mon.monmap.get_inst mon.whoami with
      | none => []
      | some inst =>
        if inst.addr = mon.myaddr then []
        else _update_whoami_scan_lookups mon
          (min (mon.whoami - 1) ((mon.monmap.size : Int) - 1) + 1).toNat
  else _update_whoami_scan_lookups mon
    (min (mon.whoami - 1) ((mon.monmap.size : Int) - 1) + 1).toNat

/-! ## Mutation cycles -/

/-- A run of write commands on the pending fork: `prepare_command` applied to
each message in turn, each with its own clock reading. -/
def prepare_commands {Addr : Type} [DecidableEq Addr] (env : Env Addr) :
    List (utime_t × MMonCommand) → MonmapMonitor Addr → MonmapMonitor Addr
  | [], s => s
  | c :: cs, s => prepare_commands env cs (prepare_command env c.1 s c.2).2

/-- Modelled from the spec: the consensus log commits proposed bytes as its
next version (`propose(bytes)` of the ConsensusLog interface; `Paxos` is
outside the sources). -/
def Paxos.commit {Addr : Type} (p : Paxos Addr) (bl : bufferlist Addr) : Paxos Addr :=
  { p with
    last_committed := p.last_committed + 1
    store := fun v => if v = p.last_committed + 1 then some bl else p.store v }

/-- One mutation cycle: `create_pending`, a run of `prepare_command` calls,
`encode_pending`, the commit of the encoded bytes as the next version, and
`update_from_paxos`. -/
def mutation_cycle {Addr : Type} [DecidableEq Addr] (env : Env Addr) (now : utime_t)
    (cmds : List (utime_t × MMonCommand)) (s : MonmapMonitor Addr) :
    Result (MonmapMonitor Addr) Bool :=
  match encode_pending (prepare_commands env cmds (create_pending now s)) with
  | Result.aborted s1 => Result.aborted s1
  | Result.ret bl s1 => update_from_paxos { s1 with paxos := s1.paxos.commit bl }

/-- A sequence of mutation cycles, each given by its clock reading and its
commands. -/
def mutation_cycles {Addr : Type} [DecidableEq Addr] (env : Env Addr) :
    List (utime_t × List (utime_t × MMonCommand)) → MonmapMonitor Addr →
      Result (MonmapMonitor Addr) Bool
  | [], s => Result.ret true s
  | c :: cs, s =>
    match mutation_cycle env c.1 c.2 s with
    | Result.aborted s1 => Result.aborted s1
    | Result.ret _ s1 => mutation_cycles env cs s1

/-! ## Concrete states used to instantiate the theorems -/

/-- Environment in which addresses are the command tokens themselves. -/
def demoEnv : Env String :=
  { parse := fun t => t
    addr_str := fun a => a
    print_summary := fun m => "e" ++ toString m.epoch
    quorum_str := fun _ => "" }

/-- Consensus log at version `v` holding no blobs. -/
def demoPaxos (v : version_t) : Paxos String :=
  { last_committed := v
    store := fun _ => none
    latest_version := 0
    latest_bl := []
    waiting_for_commit := [] }

/-- Monitor `whoami` at address `me` with the given map and an empty log. -/
def demoMon (whoami : Int) (me : String) (map : MonMap String) : Monitor String :=
  { whoami := whoami
    myaddr := me
    monmap := map
    election_epoch := 0
    quorum := []
    log := [] }

/-- Service of monitor 0 (address A) whose authoritative map is
`epoch 1, [A, B, C]` and whose pending fork is `epoch 2, [A, B, C]`. -/
def demoService : MonmapMonitor String :=
  { mon := demoMon 0 "A" ⟨1, ["A", "B", "C"], 0⟩
    paxos := demoPaxos 1
    pending_map := ⟨2, ["A", "B", "C"], 5⟩
    monmap_bl := [] }

/-- Service of monitor 0 (address A) on the one-member map `[A]`. -/
def demoSingle : MonmapMonitor String :=
  { mon := demoMon 0 "A" ⟨1, ["A"], 0⟩
    paxos := demoPaxos 1
    pending_map := ⟨2, ["A"], 5⟩
    monmap_bl := [] }

/-- Consensus log at version `v` whose blob for `v` is the encoding of `m`. -/
def demoPaxosWith (v : version_t) (m : MonMap String) : Paxos String :=
  { last_committed := v
    store := fun x => if x = v then some m.encode else none
    latest_version := 0
    latest_bl := []
    waiting_for_commit := [] }

/-- Service of monitor 1 (address B) on the map `epoch 1, [A, B]`, with
version 2 committed as the map `epoch 2, [A]`: B has been removed. -/
def demoRemoved : MonmapMonitor String :=
  { mon := demoMon 1 "B" ⟨1, ["A", "B"], 0⟩
    paxos := demoPaxosWith 2 ⟨2, ["A"], 7⟩
    pending_map := ⟨2, ["A"], 7⟩
    monmap_bl := [] }

/-- Service of monitor 0 (address A) on the empty map `epoch 0`, with
version 1 committed as the map `epoch 1, [A]`: the bootstrap of a
single-member cluster. -/
def demoBootstrap : MonmapMonitor String :=
  { mon := demoMon 0 "A" ⟨0, [], 0⟩
    paxos := demoPaxosWith 1 ⟨1, ["A"], 7⟩
    pending_map := ⟨1, ["A"], 7⟩
    monmap_bl := [] }

/-- Service of monitor 0 (address A) on the map `epoch 3, [A]` whose
consensus log reports version 2: the log has regressed. -/
def demoRegressed : MonmapMonitor String :=
  { mon := demoMon 0 "A" ⟨3, ["A"], 0⟩
    paxos := demoPaxosWith 2 ⟨2, ["A"], 7⟩
    pending_map := ⟨4, ["A"], 7⟩
    monmap_bl := [] }

/-- Service of monitor 0 (address A) on the map `epoch 1, [A, B]`, with
version 2 committed as the map `epoch 2, [A, C]`: an address swapped at
constant size. -/
def demoSwap : MonmapMonitor String :=
  { mon := demoMon 0 "A" ⟨1, ["A", "B"], 0⟩
    paxos := demoPaxosWith 2 ⟨2, ["A", "C"], 7⟩
    pending_map := ⟨2, ["A", "C"], 7⟩
    monmap_bl := [] }

/-- Synced service of monitor 1 (address B) on the map `epoch 1, [A, B, C]`
with an empty consensus store at version 1. -/
def demoSynced : MonmapMonitor String :=
  { mon := demoMon 1 "B" ⟨1, ["A", "B", "C"], 0⟩
    paxos := demoPaxos 1
    pending_map := ⟨1, [], 0⟩
    monmap_bl := [] }

/-- Service with the id -1 (address B) on the map `epoch 1, [A, B]`, with
version 2 committed as the map `epoch 2, [A]`: a newer version with a readable
blob whose member count differs. -/
def demoNegativeId : MonmapMonitor String :=
  { mon := demoMon (-1) "B" ⟨1, ["A", "B"], 0⟩
    paxos := demoPaxosWith 2 ⟨2, ["A"], 7⟩
    pending_map := ⟨2, ["A"], 7⟩
    monmap_bl := [] }

/-- Service of monitor 0 (address A) on the map `epoch 1, [A]`, with version 2
committed as bytes that are read but are not an encoded map (the epoch field
alone). -/
def demoGarbled : MonmapMonitor String :=
  { mon := demoMon 0 "A" ⟨1, ["A"], 0⟩
    paxos :=
      { last_committed := 2
        store := fun x => if x = 2 then some [WireItem.num 2] else none
        latest_version := 0
        latest_bl := []
        waiting_for_commit := [] }
    pending_map := ⟨2, ["A"], 7⟩
    monmap_bl := [] }

/-! ## Write path -/

section WritePath

variable {Addr : Type} [DecidableEq Addr]

/-- The result of `prepare_command` on an `add` of a present address. -/
theorem prepare_command_add_existing_aux (env : Env Addr) (now : utime_t)
    (s : MonmapMonitor Addr) (c0 a : String)
    (h : env.parse a ∈ s.pending_map.mon_inst) :
    (prepare_command env now s ⟨[c0, "add", a]⟩).1 = false := by
  simp [prepare_command, prepare_command_out, MonMap.contains, h]

/-- The result of `prepare_command` on a `remove` of an absent address. -/
theorem prepare_command_remove_absent_aux (env : Env Addr) (now : utime_t)
    (s : MonmapMonitor Addr) (c0 a : String)
    (h : env.parse a ∉ s.pending_map.mon_inst) :
    (prepare_command env now s ⟨[c0, "remove", a]⟩).1 = false := by
  simp [prepare_command, prepare_command_out, MonMap.contains, h]

/-- C1. Adding an address that the pending fork already contains: the command
`[c0, "add", a]` gets exactly one immediate reply, with code `-EEXIST`;
`prepare_command` returns false, queues no deferred reply and leaves the
pending fork (members, epoch, last_changed) as it was. -/
theorem prepare_command_add_existing (env : Env Addr) (now : utime_t)
    (s : MonmapMonitor Addr) (c0 a : String)
    (h : env.parse a ∈ s.pending_map.mon_inst) :
    (prepare_command env now s ⟨[c0, "add", a]⟩).1 = false ∧
    (∃ rs, (prepare_command env now s ⟨[c0, "add", a]⟩).2.mon.log =
      s.mon.log ++ [Event.reply_command ⟨[c0, "add", a]⟩ (-EEXIST) rs []
        s.paxos.last_committed]) ∧
    (prepare_command env now s ⟨[c0, "add", a]⟩).2.paxos.waiting_for_commit =
      s.paxos.waiting_for_commit ∧
    (prepare_command env now s ⟨[c0, "add", a]⟩).2.pending_map = s.pending_map := by
  simp [prepare_command, prepare_command_out, MonMap.contains, h, Monitor.reply_command]

/-- C1 at `add B` on the pending fork `[A, B, C]`. -/
theorem prepare_command_add_existing_witness :
    (prepare_command demoEnv 9 demoService ⟨["mon", "add", "B"]⟩).1 = false ∧
    (∃ rs, (prepare_command demoEnv 9 demoService ⟨["mon", "add", "B"]⟩).2.mon.log =
      demoService.mon.log ++ [Event.reply_command ⟨["mon", "add", "B"]⟩ (-EEXIST) rs []
        demoService.paxos.last_committed]) ∧
    (prepare_command demoEnv 9 demoService ⟨["mon", "add", "B"]⟩).2.paxos.waiting_for_commit =
      demoService.paxos.waiting_for_commit ∧
    (prepare_command demoEnv 9 demoService ⟨["mon", "add", "B"]⟩).2.pending_map =
      demoService.pending_map :=
  prepare_command_add_existing demoEnv 9 demoService "mon" "B"
    (by simp [demoEnv, demoService])

/-- C2. Removing an address that the pending fork does not contain: the
command `[c0, "remove", a]` gets exactly one immediate reply, with code
`-ENOENT`; `prepare_command` returns false, queues no deferred reply and
leaves the pending fork as it was. -/
theorem prepare_command_remove_absent (env : Env Addr) (now : utime_t)
    (s : MonmapMonitor Addr) (c0 a : String)
    (h : env.parse a ∉ s.pending_map.mon_inst) :
    (prepare_command env now s ⟨[c0, "remove", a]⟩).1 = false ∧
    (∃ rs, (prepare_command env now s ⟨[c0, "remove", a]⟩).2.mon.log =
      s.mon.log ++ [Event.reply_command ⟨[c0, "remove", a]⟩ (-ENOENT) rs []
        s.paxos.last_committed]) ∧
    (prepare_command env now s ⟨[c0, "remove", a]⟩).2.paxos.waiting_for_commit =
      s.paxos.waiting_for_commit ∧
    (prepare_command env now s ⟨[c0, "remove", a]⟩).2.pending_map = s.pending_map := by
  simp [prepare_command, prepare_command_out, MonMap.contains, h, Monitor.reply_command]

/-- C2 at `remove D` on the pending fork `[A, B, C]`. -/
theorem prepare_command_remove_absent_witness :
    (prepare_command demoEnv 9 demoService ⟨["mon", "remove", "D"]⟩).1 = false ∧
    (∃ rs, (prepare_command demoEnv 9 demoService ⟨["mon", "remove", "D"]⟩).2.mon.log =
      demoService.mon.log ++ [Event.reply_command ⟨["mon", "remove", "D"]⟩ (-ENOENT) rs []
        demoService.paxos.last_committed]) ∧
    (prepare_command demoEnv 9 demoService ⟨["mon", "remove", "D"]⟩).2.paxos.waiting_for_commit =
      demoService.paxos.waiting_for_commit ∧
    (prepare_command demoEnv 9 demoService ⟨["mon", "remove", "D"]⟩).2.pending_map =
      demoService.pending_map :=
  prepare_command_remove_absent demoEnv 9 demoService "mon" "D"
    (by simp [demoEnv, demoService])

/-- C3. Adding an address that the pending fork (of `n` members) does not
contain: `prepare_command` returns true; the epoch and the first `n` members
are as before, the member count is `n + 1` and ordinal id `n` is bound to the
new address; no immediate reply is sent, and exactly one deferred reply, with
code 0, is queued for the commit. -/
theorem prepare_command_add_fresh (env : Env Addr) (now : utime_t)
    (s : MonmapMonitor Addr) (c0 a : String)
    (h : env.parse a ∉ s.pending_map.mon_inst) :
    (prepare_command env now s ⟨[c0, "add", a]⟩).1 = true ∧
    (prepare_command env now s ⟨[c0, "add", a]⟩).2.pending_map.epoch =
      s.pending_map.epoch ∧
    (∀ i : Nat, i < s.pending_map.size →
      (prepare_command env now s ⟨[c0, "add", a]⟩).2.pending_map.get_inst i =
        s.pending_map.get_inst i) ∧
    (prepare_command env now s ⟨[c0, "add", a]⟩).2.pending_map.size =
      s.pending_map.size + 1 ∧
    (prepare_command env now s ⟨[c0, "add", a]⟩).2.pending_map.get_inst
      s.pending_map.size = some ⟨s.pending_map.size, env.parse a⟩ ∧
    (prepare_command env now s ⟨[c0, "add", a]⟩).2.mon.log = s.mon.log ∧
    (∃ rs, (prepare_command env now s ⟨[c0, "add", a]⟩).2.paxos.waiting_for_commit =
      s.paxos.waiting_for_commit ++
        [⟨⟨[c0, "add", a]⟩, 0, rs, s.paxos.last_committed⟩]) := by
  have hc : s.pending_map.contains (env.parse a) = false := by
    simp [MonMap.contains, h]
  refine ⟨?_, ?_, ?_, ?_, ?_, ?_, ?_⟩
  · simp [prepare_command, hc]
  · simp [prepare_command, hc, MonMap.add]
  · intro i hi
    have hi2 : i < s.pending_map.mon_inst.length := hi
    simp [prepare_command, hc, MonMap.add, MonMap.get_inst, List.getElem?_append_left hi2]
  · simp [prepare_command, hc, MonMap.add, MonMap.size]
  · simp [prepare_command, hc, MonMap.add, MonMap.size, MonMap.get_inst]
  · simp [prepare_command, hc]
  · simp [prepare_command, hc]

/-- C3 at `add D` on the pending fork `[A, B, C]`. -/
theorem prepare_command_add_fresh_witness :
    (prepare_command demoEnv 9 demoService ⟨["mon", "add", "D"]⟩).1 = true ∧
    (prepare_command demoEnv 9 demoService ⟨["mon", "add", "D"]⟩).2.pending_map.epoch =
      demoService.pending_map.epoch ∧
    (∀ i : Nat, i < demoService.pending_map.size →
      (prepare_command demoEnv 9 demoService ⟨["mon", "add", "D"]⟩).2.pending_map.get_inst i =
        demoService.pending_map.get_inst i) ∧
    (prepare_command demoEnv 9 demoService ⟨["mon", "add", "D"]⟩).2.pending_map.size =
      demoService.pending_map.size + 1 ∧
    (prepare_command demoEnv 9 demoService ⟨["mon", "add", "D"]⟩).2.pending_map.get_inst
      demoService.pending_map.size =
        some ⟨demoService.pending_map.size, demoEnv.parse "D"⟩ ∧
    (prepare_command demoEnv 9 demoService ⟨["mon", "add", "D"]⟩).2.mon.log =
      demoService.mon.log ∧
    (∃ rs,
      (prepare_command demoEnv 9 demoService ⟨["mon", "add", "D"]⟩).2.paxos.waiting_for_commit =
        demoService.paxos.waiting_for_commit ++
          [⟨⟨["mon", "add", "D"]⟩, 0, rs, demoService.paxos.last_committed⟩]) :=
  prepare_command_add_fresh demoEnv 9 demoService "mon" "D"
    (by simp [demoEnv, demoService])

/-- C4. Removing the address bound to ordinal id `k` of a pending fork with
pairwise distinct addresses: `prepare_command` returns true, sends exactly one
immediate reply with code 0 and queues no deferred reply; the new member list
is the old one with entry `k` deleted (ids below `k` keep their address, each
id from `k` on takes the address of the next higher old id), the member count
drops by one and the epoch is unchanged. -/
theorem prepare_command_remove_present (env : Env Addr) (now : utime_t)
    (s : MonmapMonitor Addr) (c0 a : String) (k : Nat)
    (hnd : s.pending_map.mon_inst.Nodup)
    (hk : s.pending_map.mon_inst[k]? = some (env.parse a)) :
    (prepare_command env now s ⟨[c0, "remove", a]⟩).1 = true ∧
    (∃ rs, (prepare_command env now s ⟨[c0, "remove", a]⟩).2.mon.log =
      s.mon.log ++ [Event.reply_command ⟨[c0, "remove", a]⟩ 0 rs []
        s.paxos.last_committed]) ∧
    (prepare_command env now s ⟨[c0, "remove", a]⟩).2.paxos.waiting_for_commit =
      s.paxos.waiting_for_commit ∧
    (prepare_command env now s ⟨[c0, "remove", a]⟩).2.pending_map.mon_inst =
      s.pending_map.mon_inst.eraseIdx k ∧
    (∀ i : Nat, i < k →
      (prepare_command env now s ⟨[c0, "remove", a]⟩).2.pending_map.mon_inst[i]? =
        s.pending_map.mon_inst[i]?) ∧
    (∀ i : Nat, k ≤ i →
      (prepare_command env now s ⟨[c0, "remove", a]⟩).2.pending_map.mon_inst[i]? =
        s.pending_map.mon_inst[i + 1]?) ∧
    (prepare_command env now s ⟨[c0, "remove", a]⟩).2.pending_map.size + 1 =
      s.pending_map.size ∧
    (prepare_command env now s ⟨[c0, "remove", a]⟩).2.pending_map.epoch =
      s.pending_map.epoch := by
  obtain ⟨hlt, hget⟩ := List.getElem?_eq_some.mp hk
  have hmem : env.parse a ∈ s.pending_map.mon_inst := hget ▸ List.getElem_mem hlt
  have hc : s.pending_map.contains (env.parse a) = true := by
    simp [MonMap.contains, hmem]
  have herase : s.pending_map.mon_inst.erase (env.parse a) =
      s.pending_map.mon_inst.eraseIdx k := by
    rw [← hget]; exact hnd.erase_getElem k hlt
  have hmap : (prepare_command env now s ⟨[c0, "remove", a]⟩).2.pending_map.mon_inst =
      s.pending_map.mon_inst.eraseIdx k := by
    simp [prepare_command, hc, MonMap.remove, herase]
  refine ⟨?_, ?_, ?_, hmap, ?_, ?_, ?_, ?_⟩
  · simp [prepare_command, hc]
  · simp [prepare_command, hc, Monitor.reply_command]
  · simp [prepare_command, hc]
  · intro i hi
    rw [hmap, List.getElem?_eraseIdx, if_pos hi]
  · intro i hi
    rw [hmap, List.getElem?_eraseIdx, if_neg (Nat.not_lt.mpr hi)]
  · simp only [MonMap.size, hmap, List.length_eraseIdx, if_pos hlt]
    omega
  · simp [prepare_command, hc, MonMap.remove]

/-- C4 at `remove B` (ordinal id 1) on the pending fork `[A, B, C]`. -/
theorem prepare_command_remove_present_witness :
    (prepare_command demoEnv 9 demoService ⟨["mon", "remove", "B"]⟩).1 = true ∧
    (∃ rs, (prepare_command demoEnv 9 demoService ⟨["mon", "remove", "B"]⟩).2.mon.log =
      demoService.mon.log ++ [Event.reply_command ⟨["mon", "remove", "B"]⟩ 0 rs []
        demoService.paxos.last_committed]) ∧
    (prepare_command demoEnv 9 demoService ⟨["mon", "remove", "B"]⟩).2.paxos.waiting_for_commit =
      demoService.paxos.waiting_for_commit ∧
    (prepare_command demoEnv 9 demoService ⟨["mon", "remove", "B"]⟩).2.pending_map.mon_inst =
      demoService.pending_map.mon_inst.eraseIdx 1 ∧
    (∀ i : Nat, i < 1 →
      (prepare_command demoEnv 9 demoService ⟨["mon", "remove", "B"]⟩).2.pending_map.mon_inst[i]? =
        demoService.pending_map.mon_inst[i]?) ∧
    (∀ i : Nat, 1 ≤ i →
      (prepare_command demoEnv 9 demoService ⟨["mon", "remove", "B"]⟩).2.pending_map.mon_inst[i]? =
        demoService.pending_map.mon_inst[i + 1]?) ∧
    (prepare_command demoEnv 9 demoService ⟨["mon", "remove", "B"]⟩).2.pending_map.size + 1 =
      demoService.pending_map.size ∧
    (prepare_command demoEnv 9 demoService ⟨["mon", "remove", "B"]⟩).2.pending_map.epoch =
      demoService.pending_map.epoch :=
  prepare_command_remove_present demoEnv 9 demoService "mon" "B" 1
    (by simp [demoService]) (by simp [demoEnv, demoService])

/-- C5. A token list that is neither `[c0, "add", a]` nor `[c0, "remove", a]`
gets exactly one immediate reply, with code `-EINVAL`; `prepare_command`
returns false, queues nothing and leaves the pending fork as it was.  Hence
`prepare_command` returns true only for a 3-token `add` of an absent address
or a 3-token `remove` of a present address. -/
theorem prepare_command_unrecognized (env : Env Addr) (now : utime_t)
    (s : MonmapMonitor Addr) (m : MMonCommand) :
    ((¬ ∃ c0 a, m.cmd = [c0, "add", a]) → (¬ ∃ c0 a, m.cmd = [c0, "remove", a]) →
      (prepare_command env now s m).1 = false ∧
      (∃ rs, (prepare_command env now s m).2.mon.log =
        s.mon.log ++ [Event.reply_command m (-EINVAL) rs [] s.paxos.last_committed]) ∧
      (prepare_command env now s m).2.paxos.waiting_for_commit =
        s.paxos.waiting_for_commit ∧
      (prepare_command env now s m).2.pending_map = s.pending_map) ∧
    ((prepare_command env now s m).1 = true →
      (∃ c0 a, m.cmd = [c0, "add", a] ∧ env.parse a ∉ s.pending_map.mon_inst) ∨
      (∃ c0 a, m.cmd = [c0, "remove", a] ∧ env.parse a ∈ s.pending_map.mon_inst)) := by
  have hshape : ∀ name : String, (m.cmd.length = 3 ∧ m.cmd.getD 1 "" = name) ↔
      ∃ c0 a, m.cmd = [c0, name, a] := by
    intro name
    constructor
    · rintro ⟨hlen, hname⟩
      match hc : m.cmd, hlen, hname with
      | [c0, c1, a], _, hname => exact ⟨c0, a, by simpa using hname⟩
    · rintro ⟨c0, a, h⟩
      simp [h]
  constructor
  · intro hadd hrem
    have h1 : ¬ (m.cmd.length = 3 ∧ m.cmd.getD 1 "" = "add") :=
      fun h => hadd ((hshape _).mp h)
    have h2 : ¬ (m.cmd.length = 3 ∧ m.cmd.getD 1 "" = "remove") :=
      fun h => hrem ((hshape _).mp h)
    by_cases hlen : m.cmd.length > 1
    · simp only [prepare_command, prepare_command_out, hlen, h1, h2, if_true, if_false,
        Monitor.reply_command]
      exact ⟨trivial, ⟨_, rfl⟩, trivial, trivial⟩
    · simp only [prepare_command, prepare_command_out, hlen, if_false,
        Monitor.reply_command]
      exact ⟨trivial, ⟨_, rfl⟩, trivial, trivial⟩
  · intro htrue
    by_cases hlen : m.cmd.length > 1
    · by_cases h1 : m.cmd.length = 3 ∧ m.cmd.getD 1 "" = "add"
      · obtain ⟨c0, a, hm⟩ := (hshape _).mp h1
        left
        refine ⟨c0, a, hm, ?_⟩
        intro hmem
        have hmm : m = ⟨[c0, "add", a]⟩ := by cases m; simpa using hm
        rw [hmm, prepare_command_add_existing_aux env now s c0 a hmem] at htrue
        exact Bool.noConfusion htrue
      · by_cases h2 : m.cmd.length = 3 ∧ m.cmd.getD 1 "" = "remove"
        · obtain ⟨c0, a, hm⟩ := (hshape _).mp h2
          right
          refine ⟨c0, a, hm, ?_⟩
          by_contra hmem
          have hmm : m = ⟨[c0, "remove", a]⟩ := by cases m; simpa using hm
          rw [hmm, prepare_command_remove_absent_aux env now s c0 a hmem] at htrue
          exact Bool.noConfusion htrue
        · simp only [prepare_command, prepare_command_out, hlen, h1, h2, if_true,
            if_false] at htrue
          exact Bool.noConfusion htrue
    · simp only [prepare_command, prepare_command_out, hlen, if_false] at htrue
      exact Bool.noConfusion htrue

/-- C5 at the two-token command `[mon, add]` on the pending fork `[A, B, C]`. -/
theorem prepare_command_unrecognized_witness :
    (prepare_command demoEnv 9 demoService ⟨["mon", "add"]⟩).1 = false ∧
    (∃ rs, (prepare_command demoEnv 9 demoService ⟨["mon", "add"]⟩).2.mon.log =
      demoService.mon.log ++
        [Event.reply_command ⟨["mon", "add"]⟩ (-EINVAL) rs []
          demoService.paxos.last_committed]) ∧
    (prepare_command demoEnv 9 demoService ⟨["mon", "add"]⟩).2.paxos.waiting_for_commit =
      demoService.paxos.waiting_for_commit ∧
    (prepare_command demoEnv 9 demoService ⟨["mon", "add"]⟩).2.pending_map =
      demoService.pending_map :=
  (prepare_command_unrecognized demoEnv 9 demoService ⟨["mon", "add"]⟩).1
    (by simp) (by simp)

end WritePath

/-! ## Read path -/

/-- C6 (the code at the failing input). The target `abc` is neither an ordinal
nor the wildcard, yet `strtol` yields 0 and leaves `errno` at 0, so
`preprocess_command` delivers the arguments to member 0 and replies with
code 0. -/
theorem preprocess_command_injectargs_non_numeric :
    strtol (c_str "abc") = (0, 0) ∧
    preprocess_command demoEnv demoSingle ⟨["mon", "injectargs", "abc", "--debug 1"]⟩ =
      Result.ret true { demoSingle with mon := { demoSingle.mon with log :=
        [Event.inject_args ⟨0, "A"⟩ "--debug 1",
         Event.reply_command ⟨["mon", "injectargs", "abc", "--debug 1"]⟩ 0 "ok" [] 1] } } := by
  constructor
  · decide
  · rfl

/-- The target `-1` of `injectargs`: the read path sends no reply and reports
the command as not handled; the write path then rejects it with `-EINVAL`. -/
theorem preprocess_command_injectargs_negative :
    preprocess_command demoEnv demoSingle ⟨["mon", "injectargs", "-1", "--debug 1"]⟩ =
      Result.ret false demoSingle ∧
    (prepare_command demoEnv 9 demoSingle ⟨["mon", "injectargs", "-1", "--debug 1"]⟩).1 =
      false ∧
    (prepare_command demoEnv 9 demoSingle
      ⟨["mon", "injectargs", "-1", "--debug 1"]⟩).2.mon.log =
        [Event.reply_command ⟨["mon", "injectargs", "-1", "--debug 1"]⟩ (-EINVAL)
          "unknown command injectargs" [] 1] := by
  refine ⟨by rfl, by rfl, by rfl⟩

/-! ## Identity resolver -/

/-- Lookup of a natural-number id. -/
theorem get_inst_natCast {Addr : Type} (m : MonMap Addr) (k : Nat) :
    m.get_inst (k : Int) = (m.mon_inst[k]?).map (fun a => ⟨k, a⟩) := by
  simp [MonMap.get_inst]

/-- Two ids of a duplicate-free member list bound to one address are equal. -/
theorem nodup_id_unique {Addr : Type} {l : List Addr} (hnd : l.Nodup) {i j : Nat} {a : Addr}
    (hi : l[i]? = some a) (hj : l[j]? = some a) : i = j := by
  obtain ⟨hil, hia⟩ := List.getElem?_eq_some.mp hi
  obtain ⟨hjl, hja⟩ := List.getElem?_eq_some.mp hj
  exact (hnd.getElem_inj_iff).mp (hia.trans hja.symm)

section Whoami

variable {Addr : Type} [DecidableEq Addr]

/-- One iteration of the backward scan at an id that is in range. -/
theorem update_whoami_scan_succ (mon : Monitor Addr) (k : Nat) (a : Addr)
    (h : mon.monmap.mon_inst[k]? = some a) :
    _update_whoami_scan mon (k + 1) =
      if a = mon.myaddr then Result.ret (some (k : Int)) mon
      else _update_whoami_scan mon k := by
  simp [_update_whoami_scan, get_inst_natCast, h]

/-- The backward scan started at most at the member count never fails a
lookup: it returns the largest id below the start that is bound to the own
address, or nothing when there is none. -/
theorem update_whoami_scan_spec (mon : Monitor Addr) :
    ∀ k : Nat, k ≤ mon.monmap.size →
      (∃ p : Nat, p < k ∧ mon.monmap.mon_inst[p]? = some mon.myaddr ∧
        (∀ i : Nat, p < i → i < k → mon.monmap.mon_inst[i]? ≠ some mon.myaddr) ∧
        _update_whoami_scan mon k = Result.ret (some (p : Int)) mon) ∨
      ((∀ i : Nat, i < k → mon.monmap.mon_inst[i]? ≠ some mon.myaddr) ∧
        _update_whoami_scan mon k = Result.ret none mon) := by
  intro k
  induction k with
  | zero =>
    intro _
    right
    exact ⟨fun i hi => absurd hi (Nat.not_lt_zero i), rfl⟩
  | succ k ih =>
    intro hk
    have hlt : k < mon.monmap.mon_inst.length := hk
    have hget : mon.monmap.mon_inst[k]? = some mon.monmap.mon_inst[k] :=
      List.getElem?_eq_getElem hlt
    rw [update_whoami_scan_succ mon k _ hget]
    by_cases heq : mon.monmap.mon_inst[k] = mon.myaddr
    · left
      refine ⟨k, Nat.lt_succ_self k, by rw [hget, heq], ?_, by rw [if_pos heq]⟩
      intro i h1 h2
      omega
    · rw [if_neg heq]
      have hk' : mon.monmap.mon_inst[k]? ≠ some mon.myaddr := by
        rw [hget]
        intro h
        exact heq (Option.some.inj h)
      rcases ih (Nat.le_of_succ_le hk) with ⟨p, hp, hpa, hab, hscan⟩ | ⟨hnone, hscan⟩
      · left
        refine ⟨p, Nat.lt_succ_of_lt hp, hpa, ?_, hscan⟩
        intro i h1 h2
        by_cases hik : i = k
        · rw [hik]; exact hk'
        · exact hab i h1 (by omega)
      · right
        refine ⟨?_, hscan⟩
        intro i hi
        by_cases hik : i = k
        · rw [hik]; exact hk'
        · exact hnone i (by omega)

/-- Start of the backward scan for a non-negative id `w`:
`MIN(w - 1, size - 1) + 1` is `min w size`. -/
theorem update_whoami_start (w n : Nat) :
    (min ((w : Int) - 1) ((n : Int) - 1) + 1).toNat = min w n := by
  omega

/-- What `_update_whoami` does from a non-negative id `w`: it always returns,
and either (1) id `w` is bound to the own address and nothing changes, or
(2) the largest id `p < w` bound to the own address becomes the id and is
announced, or (3) no id up to `w` is bound to the own address: the member
count is announced as the name, the own address is appended and shutdown is
initiated, while `whoami` keeps its value. -/
theorem update_whoami_cases (mon : Monitor Addr) (w : Nat) (hw : mon.whoami = (w : Int)) :
    (mon.monmap.mon_inst[w]? = some mon.myaddr ∧ _update_whoami mon = Result.ret () mon) ∨
    (∃ p : Nat, p < w ∧ mon.monmap.mon_inst[p]? = some mon.myaddr ∧
      (∀ i : Nat, p < i → i ≤ w → mon.monmap.mon_inst[i]? ≠ some mon.myaddr) ∧
      _update_whoami mon =
        Result.ret () ({ mon with whoami := (p : Int) }.set_myname (p : Int))) ∨
    ((∀ i : Nat, i ≤ w → mon.monmap.mon_inst[i]? ≠ some mon.myaddr) ∧
      _update_whoami mon = Result.ret ()
        { (mon.set_myname (mon.monmap.size : Int)) with
            monmap := mon.monmap.add mon.myaddr }.shutdown) := by
  by_cases hfirst : mon.monmap.mon_inst[w]? = some mon.myaddr
  · left
    refine ⟨hfirst, ?_⟩
    have hlt : w < mon.monmap.mon_inst.length := (List.getElem?_eq_some.mp hfirst).1
    have hlt2 : (w : Int) < (mon.monmap.size : Int) := by
      simp only [MonMap.size]; exact_mod_cast hlt
    simp [_update_whoami, hw, hlt2, get_inst_natCast, hfirst]
  · right
    have hrest : _update_whoami mon = _update_whoami_rest mon := by
      unfold _update_whoami
      by_cases hlt : mon.whoami < (mon.monmap.size : Int)
      · have hlt1 : w < mon.monmap.mon_inst.length := by
          rw [hw] at hlt; simp only [MonMap.size] at hlt; exact_mod_cast hlt
        have hget : mon.monmap.mon_inst[w]? = some mon.monmap.mon_inst[w] :=
          List.getElem?_eq_getElem hlt1
        have hne : ¬ mon.monmap.mon_inst[w] = mon.myaddr := by
          intro h; exact hfirst (by rw [hget, h])
        rw [if_pos hlt, hw, get_inst_natCast, hget]
        simp [hne]
      · rw [if_neg hlt]
    have hstart : (min (mon.whoami - 1) ((mon.monmap.size : Int) - 1) + 1).toNat =
        min w mon.monmap.size := by
      rw [hw]; exact update_whoami_start w mon.monmap.size
    have hfirst' : ∀ i : Nat, w ≤ i → i ≤ w → mon.monmap.mon_inst[i]? ≠ some mon.myaddr := by
      intro i h1 h2
      have : i = w := le_antisymm h2 h1
      rw [this]; exact hfirst
    have hbeyond : ∀ i : Nat, mon.monmap.size ≤ i →
        mon.monmap.mon_inst[i]? ≠ some mon.myaddr := by
      intro i hi
      have : mon.monmap.mon_inst[i]? = none := List.getElem?_eq_none hi
      rw [this]; exact Option.noConfusion
    rcases update_whoami_scan_spec mon (min w mon.monmap.size) (Nat.min_le_right _ _) with
      ⟨p, hp, hpa, hab, hscan⟩ | ⟨hnone, hscan⟩
    · left
      refine ⟨p, lt_of_lt_of_le hp (Nat.min_le_left _ _), hpa, ?_, ?_⟩
      · intro i h1 h2
        by_cases hi : i < min w mon.monmap.size
        · exact hab i h1 hi
        · by_cases hiw : i < w
          · exact hbeyond i (by omega)
          · exact hfirst' i (by omega) h2
      · rw [hrest]
        simp only [_update_whoami_rest, hstart, hscan]
    · right
      refine ⟨?_, ?_⟩
      · intro i hi
        by_cases hi2 : i < min w mon.monmap.size
        · exact hnone i hi2
        · by_cases hiw : i < w
          · exact hbeyond i (by omega)
          · exact hfirst' i (by omega) hi
      · rw [hrest]
        simp only [_update_whoami_rest, hstart, hscan]
        rfl

/-- C7. Removals below the own id.  The old member list `pre ++ me :: post`
has pairwise distinct addresses and binds the own address to the current id
`k = |pre|`; the new map keeps `me :: post` and keeps `|pre| - j` of the
entries of `pre`, in order.  Then `_update_whoami` returns with the id
`k - j`, which the map binds to the own address; the map is untouched and
the only call it may make is the announcement of the new id (no shutdown). -/
theorem update_whoami_after_removals (mon : Monitor Addr) (pre kept post : List Addr)
    (j : Nat)
    (hnd : (pre ++ mon.myaddr :: post).Nodup)
    (hsub : kept.Sublist pre)
    (hj : kept.length + j = pre.length)
    (hmap : mon.monmap.mon_inst = kept ++ mon.myaddr :: post)
    (hw : mon.whoami = (pre.length : Int)) :
    ∃ mon1, _update_whoami mon = Result.ret () mon1 ∧
      mon1.whoami = (pre.length : Int) - (j : Int) ∧
      (mon1.monmap.get_inst mon1.whoami).map (fun inst => inst.addr) = some mon.myaddr ∧
      mon1.monmap = mon.monmap ∧
      (mon1.log = mon.log ∨ mon1.log = mon.log ++ [Event.set_myname mon1.whoami]) := by
  have hnd' : mon.monmap.mon_inst.Nodup := by
    rw [hmap]
    exact (List.Sublist.append hsub (List.Sublist.refl _)).nodup hnd
  have hme : mon.monmap.mon_inst[kept.length]? = some mon.myaddr := by
    rw [hmap, List.getElem?_append_right (le_refl _)]; simp
  have hwj : (pre.length : Int) - (j : Int) = (kept.length : Int) := by omega
  rcases update_whoami_cases mon pre.length hw with
    ⟨hfirst, hres⟩ | ⟨p, hp, hpa, _, hres⟩ | ⟨hnone, _⟩
  · have hk : pre.length = kept.length := nodup_id_unique hnd' hfirst hme
    refine ⟨mon, hres, by rw [hw]; omega, ?_, rfl, Or.inl rfl⟩
    rw [hw, get_inst_natCast, hfirst]; rfl
  · have hk : p = kept.length := nodup_id_unique hnd' hpa hme
    refine ⟨_, hres, ?_, ?_, rfl, Or.inr rfl⟩
    · show (p : Int) = _
      rw [hwj, hk]
    · show (mon.monmap.get_inst (p : Int)).map (fun inst => inst.addr) = some mon.myaddr
      rw [get_inst_natCast, hpa]; rfl
  · exact absurd hme (hnone kept.length (by omega))

/-- C7 at the scenario of the specification: map `[A, B, C]`, the service is
id 2 (C); A is removed, the new map is `[B, C]` and the id becomes 1. -/
theorem update_whoami_after_removals_witness :
    ∃ mon1, _update_whoami (demoMon 2 "C" ⟨2, ["B", "C"], 0⟩) = Result.ret () mon1 ∧
      mon1.whoami = ((["A", "B"] : List String).length : Int) - ((1 : Nat) : Int) ∧
      (mon1.monmap.get_inst mon1.whoami).map (fun inst => inst.addr) =
        some (demoMon 2 "C" ⟨2, ["B", "C"], 0⟩).myaddr ∧
      mon1.monmap = (demoMon 2 "C" ⟨2, ["B", "C"], 0⟩).monmap ∧
      (mon1.log = (demoMon 2 "C" ⟨2, ["B", "C"], 0⟩).log ∨
        mon1.log = (demoMon 2 "C" ⟨2, ["B", "C"], 0⟩).log ++
          [Event.set_myname mon1.whoami]) :=
  update_whoami_after_removals (demoMon 2 "C" ⟨2, ["B", "C"], 0⟩) ["A", "B"] ["B"] [] 1
    (by decide) (by decide) (by decide) (by decide) (by decide)

/-- When no id up to the current one is bound to the own address,
`_update_whoami` announces the member count as the name, appends the own
address and initiates shutdown; `whoami` keeps its value. -/
theorem update_whoami_removed (mon : Monitor Addr) (hw : 0 ≤ mon.whoami)
    (habs : mon.myaddr ∉ mon.monmap.mon_inst) :
    _update_whoami mon = Result.ret ()
      { mon with
        monmap := mon.monmap.add mon.myaddr
        log := mon.log ++ [Event.set_myname (mon.monmap.size : Int), Event.shutdown] } := by
  obtain ⟨w, hw'⟩ := Int.eq_ofNat_of_zero_le hw
  have hnot : ∀ i : Nat, mon.monmap.mon_inst[i]? ≠ some mon.myaddr := by
    intro i h
    obtain ⟨hil, hia⟩ := List.getElem?_eq_some.mp h
    exact habs (hia ▸ List.getElem_mem hil)
  rcases update_whoami_cases mon w hw' with ⟨hfirst, _⟩ | ⟨p, _, hpa, _, _⟩ | ⟨_, hres⟩
  · exact absurd hfirst (hnot w)
  · exact absurd hpa (hnot p)
  · rw [hres]
    simp [Monitor.shutdown, Monitor.set_myname]

/-- C8 (the code at the failing input). Map `[A, C]`, own address B, current
id 1: no member is bound to B.  `_update_whoami` announces the placeholder 2
to the messenger, appends B at id 2 and initiates shutdown, but `whoami`
stays 1, an id that the map binds to C. -/
theorem update_whoami_removed_keeps_whoami :
    _update_whoami (demoMon 1 "B" ⟨2, ["A", "C"], 0⟩) =
      Result.ret ()
        { demoMon 1 "B" ⟨2, ["A", "C", "B"], 0⟩ with
          log := [Event.set_myname 2, Event.shutdown] } ∧
    (demoMon 1 "B" ⟨2, ["A", "C", "B"], 0⟩).whoami = 1 ∧
    (demoMon 1 "B" ⟨2, ["A", "C", "B"], 0⟩).monmap.get_inst 1 = some ⟨1, "C"⟩ := by
  refine ⟨?_, rfl, ?_⟩
  · rfl
  · decide

end Whoami

/-! ## Sync -/

section Sync

variable {Addr : Type} [DecidableEq Addr]

/-- The run of `update_from_paxos` when the committed version is newer than
the authoritative epoch and its blob is read and decoded. -/
theorem update_from_paxos_newer (s : MonmapMonitor Addr) (bl : bufferlist Addr)
    (newmap : MonMap Addr)
    (hv : s.mon.monmap.epoch < s.paxos.last_committed)
    (hread : s.paxos.store s.paxos.last_committed = some bl)
    (hdec : MonMap.decode bl = some newmap) :
    update_from_paxos s =
      if s.mon.monmap.size ≠ newmap.size then
        match _update_whoami (update_from_paxos_synced s bl newmap).mon with
        | Result.aborted mon1 =>
          Result.aborted { update_from_paxos_synced s bl newmap with mon := mon1 }
        | Result.ret _ mon1 =>
          if mon1.monmap.size > 1 then
            Result.ret true
              { update_from_paxos_synced s bl newmap with mon := mon1.call_election }
          else
            Result.ret true
              { update_from_paxos_synced s bl newmap with
                mon := mon1.win_election 1 [mon1.whoami] }
      else Result.ret true (update_from_paxos_synced s bl newmap) := by
  have h1 : ¬ s.paxos.last_committed = s.mon.monmap.epoch := Nat.ne_of_gt hv
  have h2 : s.paxos.last_committed ≥ s.mon.monmap.epoch := Nat.le_of_lt hv
  unfold update_from_paxos
  simp only [h1, h2, if_false, not_true_eq_false, hread, hdec]
  rfl

/-- C9 (as amended). When the committed version is newer than the
authoritative epoch, its blob is read and decoded, the decoded member count
differs from the count before the sync and the current id is not negative,
`update_from_paxos` runs `_update_whoami` on the decoded map (which calls only
`set_myname` and `shutdown`, and leaves the decoded map or the decoded map
with the own address appended) and then makes exactly one election call:
`call_election()` when the member count after `_update_whoami` is above 1,
`win_election(1, [whoami])` when that count is exactly 1. -/
theorem update_from_paxos_election (s : MonmapMonitor Addr) (bl : bufferlist Addr)
    (newmap : MonMap Addr)
    (hv : s.mon.monmap.epoch < s.paxos.last_committed)
    (hread : s.paxos.store s.paxos.last_committed = some bl)
    (hdec : MonMap.decode bl = some newmap)
    (hsize : s.mon.monmap.size ≠ newmap.size)
    (hwho : 0 ≤ s.mon.whoami) :
    ∃ mon1 ev s1,
      _update_whoami { s.mon with monmap := newmap } = Result.ret () mon1 ∧
      mon1.log = s.mon.log ++ ev ∧
      (∀ e ∈ ev, (∃ i, e = Event.set_myname i) ∨ e = Event.shutdown) ∧
      (mon1.monmap = newmap ∨
        (mon1.monmap = newmap.add s.mon.myaddr ∧ Event.shutdown ∈ ev)) ∧
      (mon1.monmap.size > 1 ∨ mon1.monmap.size = 1) ∧
      update_from_paxos s = Result.ret true s1 ∧
      s1.mon.monmap = mon1.monmap ∧
      s1.mon.whoami = mon1.whoami ∧
      s1.mon.log = s.mon.log ++ ev ++
        [if mon1.monmap.size > 1 then Event.call_election
         else Event.win_election 1 [mon1.whoami]] := by
  obtain ⟨w, hw⟩ := Int.eq_ofNat_of_zero_le hwho
  have hrun := update_from_paxos_newer s bl newmap hv hread hdec
  rw [if_pos hsize] at hrun
  have hpos : ∀ (l : List Addr) (i : Nat) (a : Addr), l[i]? = some a → 0 < l.length := by
    intro l i a h
    exact lt_of_le_of_lt (Nat.zero_le i) (List.getElem?_eq_some.mp h).1
  have hsz : ∀ n : Nat, 0 < n → (n > 1 ∨ n = 1) := by
    intro n hn; omega
  have key : ∃ mon1 ev,
      _update_whoami { s.mon with monmap := newmap } = Result.ret () mon1 ∧
      mon1.log = s.mon.log ++ ev ∧
      (∀ e ∈ ev, (∃ i, e = Event.set_myname i) ∨ e = Event.shutdown) ∧
      (mon1.monmap = newmap ∨
        (mon1.monmap = newmap.add s.mon.myaddr ∧ Event.shutdown ∈ ev)) ∧
      (mon1.monmap.size > 1 ∨ mon1.monmap.size = 1) := by
    rcases update_whoami_cases { s.mon with monmap := newmap } w hw with
      ⟨hfirst, hres⟩ | ⟨p, _, hpa, _, hres⟩ | ⟨_, hres⟩
    · refine ⟨_, [], hres, by simp, by simp, Or.inl rfl, ?_⟩
      exact hsz _ (hpos _ _ _ hfirst)
    · refine ⟨_, [Event.set_myname (p : Int)], hres, rfl, ?_, Or.inl rfl, ?_⟩
      · intro e he
        left
        exact ⟨_, List.mem_singleton.mp he⟩
      · exact hsz _ (hpos _ _ _ hpa)
    · refine ⟨_, [Event.set_myname (newmap.size : Int), Event.shutdown], hres, ?_, ?_,
        Or.inr ⟨rfl, by simp⟩, ?_⟩
      · simp [Monitor.shutdown, Monitor.set_myname]
      · intro e he
        rcases List.mem_cons.mp he with h | h
        · left; exact ⟨_, h⟩
        · right; exact List.mem_singleton.mp h
      · exact hsz _ (by simp [Monitor.shutdown, Monitor.set_myname, MonMap.add, MonMap.size])
  obtain ⟨mon1, ev, hres, hlog, hev, hmap, hcount⟩ := key
  have hres' : _update_whoami (update_from_paxos_synced s bl newmap).mon =
      Result.ret () mon1 := hres
  rw [hres'] at hrun
  by_cases hbig : mon1.monmap.size > 1
  · refine ⟨mon1, ev,
      { update_from_paxos_synced s bl newmap with mon := mon1.call_election },
      hres, hlog, hev, hmap, hcount, ?_, rfl, rfl, ?_⟩
    · rw [hrun]; simp only [hbig, if_true]
    · simp [hbig, Monitor.call_election, hlog]
  · refine ⟨mon1, ev,
      { update_from_paxos_synced s bl newmap with
        mon := mon1.win_election 1 [mon1.whoami] },
      hres, hlog, hev, hmap, hcount, ?_, rfl, rfl, ?_⟩
    · rw [hrun]; simp only [hbig, if_false]
    · simp [hbig, Monitor.win_election, hlog]

/-- C9 at the bootstrap of a single-member cluster: the empty map is
replaced by `[A]`, the service is A with id 0, and the one election call is
`win_election(1, [0])`. -/
theorem update_from_paxos_election_witness :
    ∃ mon1 ev s1,
      _update_whoami { demoBootstrap.mon with monmap := ⟨1, ["A"], 7⟩ } =
        Result.ret () mon1 ∧
      mon1.log = demoBootstrap.mon.log ++ ev ∧
      (∀ e ∈ ev, (∃ i, e = Event.set_myname i) ∨ e = Event.shutdown) ∧
      (mon1.monmap = ⟨1, ["A"], 7⟩ ∨
        (mon1.monmap = (⟨1, ["A"], 7⟩ : MonMap String).add demoBootstrap.mon.myaddr ∧
          Event.shutdown ∈ ev)) ∧
      (mon1.monmap.size > 1 ∨ mon1.monmap.size = 1) ∧
      update_from_paxos demoBootstrap = Result.ret true s1 ∧
      s1.mon.monmap = mon1.monmap ∧
      s1.mon.whoami = mon1.whoami ∧
      s1.mon.log = demoBootstrap.mon.log ++ ev ++
        [if mon1.monmap.size > 1 then Event.call_election
         else Event.win_election 1 [mon1.whoami]] :=
  update_from_paxos_election demoBootstrap (MonMap.encode ⟨1, ["A"], 7⟩) ⟨1, ["A"], 7⟩
    (by decide) (by rfl) (by rfl) (by decide) (by decide)

/-- C9 (as stated) fails. The service is B with id 1 on the map `[A, B]`;
version 2 is the map `[A]`, so the synced member count is exactly 1 and
differs from the count 2 before the sync.  `_update_whoami` finds no match and
re-inserts B, the count it leaves is 2, and `update_from_paxos` calls
`call_election()`; `win_election` is not called. -/
theorem update_from_paxos_election_counterexample :
    demoRemoved.paxos.last_committed ≠ demoRemoved.mon.monmap.epoch ∧
    (demoRemoved.paxos.store demoRemoved.paxos.last_committed).bind MonMap.decode =
      some ⟨2, ["A"], 7⟩ ∧
    (⟨2, ["A"], 7⟩ : MonMap String).size = 1 ∧
    demoRemoved.mon.monmap.size = 2 ∧
    (update_from_paxos demoRemoved).returned = true ∧
    (update_from_paxos demoRemoved).state.mon.monmap = ⟨2, ["A", "B"], 7⟩ ∧
    (update_from_paxos demoRemoved).state.mon.log =
      [Event.set_myname 1, Event.shutdown, Event.call_election] := by
  refine ⟨by decide, by rfl, by rfl, by rfl, by rfl, by rfl, by rfl⟩

/-- C10. When the committed version equals the authoritative epoch,
`update_from_paxos` returns true and `tick` returns, both leaving the whole
service state (authoritative map, cached blob, pending fork, id, call log) as
it was, whatever the consensus log holds: nothing is read from it, and no
call to `_update_whoami`, `call_election` or `win_election` is made. -/
theorem update_from_paxos_already_synced (s : MonmapMonitor Addr)
    (h : s.paxos.last_committed = s.mon.monmap.epoch) :
    update_from_paxos s = Result.ret true s ∧
    tick s = Result.ret () s ∧
    (∀ st : version_t → Option (bufferlist Addr),
      update_from_paxos { s with paxos := { s.paxos with store := st } } =
        Result.ret true { s with paxos := { s.paxos with store := st } }) := by
  have h1 : update_from_paxos s = Result.ret true s := by
    unfold update_from_paxos
    simp only [h, if_true]
  refine ⟨h1, ?_, ?_⟩
  · unfold tick
    rw [h1]
  · intro st
    unfold update_from_paxos
    simp only [h, if_true]

/-- C10 at the service on `epoch 1, [A, B, C]` with version 1 committed. -/
theorem update_from_paxos_already_synced_witness :
    update_from_paxos demoService = Result.ret true demoService ∧
    tick demoService = Result.ret () demoService ∧
    (∀ st : version_t → Option (bufferlist String),
      update_from_paxos { demoService with paxos := { demoService.paxos with store := st } } =
        Result.ret true
          { demoService with paxos := { demoService.paxos with store := st } }) :=
  update_from_paxos_already_synced demoService (by decide)

end Sync

/-! ## Sync: regression and constant-size updates -/

section SyncMore

variable {Addr : Type} [DecidableEq Addr]

/-- From a non-negative id `_update_whoami` always returns. -/
theorem update_whoami_returns (mon : Monitor Addr) (hw : 0 ≤ mon.whoami) :
    ∃ mon1, _update_whoami mon = Result.ret () mon1 := by
  obtain ⟨w, hw'⟩ := Int.eq_ofNat_of_zero_le hw
  rcases update_whoami_cases mon w hw' with ⟨_, hres⟩ | ⟨p, _, _, _, hres⟩ | ⟨_, hres⟩
  · exact ⟨_, hres⟩
  · exact ⟨_, hres⟩
  · exact ⟨_, hres⟩

/-- C11 (as amended). When the committed version is strictly below the
authoritative epoch, `update_from_paxos` stops at the assertion with the
service state exactly as it was (authoritative map, cached blob and id
untouched).  When the committed version is at least the epoch, its blob is
read and decodes to a map, and the id is not negative whenever the decoded
member count differs from the count before the sync, it returns. -/
theorem update_from_paxos_regression (s : MonmapMonitor Addr) :
    (s.paxos.last_committed < s.mon.monmap.epoch →
      update_from_paxos s = Result.aborted s) ∧
    (s.paxos.last_committed ≥ s.mon.monmap.epoch →
      ∀ (bl : bufferlist Addr) (newmap : MonMap Addr),
        s.paxos.store s.paxos.last_committed = some bl →
        MonMap.decode bl = some newmap →
        (s.mon.monmap.size ≠ newmap.size → 0 ≤ s.mon.whoami) →
        (update_from_paxos s).returned = true) := by
  constructor
  · intro hlt
    have h1 : ¬ s.paxos.last_committed = s.mon.monmap.epoch := Nat.ne_of_lt hlt
    have h2 : ¬ s.paxos.last_committed ≥ s.mon.monmap.epoch := Nat.not_le.mpr hlt
    unfold update_from_paxos
    simp only [h1, h2, if_false, not_false_eq_true, if_true]
  · intro hge bl newmap hread hdec hwho
    by_cases heq : s.paxos.last_committed = s.mon.monmap.epoch
    · unfold update_from_paxos
      simp only [heq, if_true]
      rfl
    · have hv : s.mon.monmap.epoch < s.paxos.last_committed :=
        lt_of_le_of_ne hge (Ne.symm heq)
      rw [update_from_paxos_newer s bl newmap hv hread hdec]
      by_cases hsize : s.mon.monmap.size ≠ newmap.size
      · obtain ⟨mon1, hres⟩ :=
          update_whoami_returns (update_from_paxos_synced s bl newmap).mon (hwho hsize)
        rw [if_pos hsize, hres]
        by_cases hbig : mon1.monmap.size > 1
        · simp only [hbig, if_true]; rfl
        · simp only [hbig, if_false]; rfl
      · rw [if_neg hsize]; rfl

/-- C11 at a regressed log (epoch 3, version 2) and at a newer version with a
readable blob (epoch 1, version 2). -/
theorem update_from_paxos_regression_witness :
    update_from_paxos demoRegressed = Result.aborted demoRegressed ∧
    (update_from_paxos demoRemoved).returned = true :=
  ⟨(update_from_paxos_regression demoRegressed).1 (by decide),
   (update_from_paxos_regression demoRemoved).2 (by decide)
     (MonMap.encode ⟨2, ["A"], 7⟩) ⟨2, ["A"], 7⟩ (by rfl) (by rfl) (fun _ => by decide)⟩

/-- C11 (as stated) fails. In both states the committed version 2 is above
the authoritative epoch 1 and its blob is read.  With the id -1 and a decoded
map of a different member count, `_update_whoami` passes the negative id to
`get_inst` and the run stops there, the map already replaced.  With bytes that
are not an encoded map, the run stops at the decode, the cached blob already
replaced. -/
theorem update_from_paxos_regression_counterexample :
    (demoNegativeId.paxos.last_committed ≥ demoNegativeId.mon.monmap.epoch ∧
      demoNegativeId.paxos.store demoNegativeId.paxos.last_committed =
        some (MonMap.encode ⟨2, ["A"], 7⟩) ∧
      (update_from_paxos demoNegativeId).returned = false ∧
      (update_from_paxos demoNegativeId).state.mon.monmap = ⟨2, ["A"], 7⟩) ∧
    (demoGarbled.paxos.last_committed ≥ demoGarbled.mon.monmap.epoch ∧
      demoGarbled.paxos.store demoGarbled.paxos.last_committed =
        some [WireItem.num 2] ∧
      (update_from_paxos demoGarbled).returned = false ∧
      (update_from_paxos demoGarbled).state.monmap_bl = [WireItem.num 2]) := by
  refine ⟨⟨by decide, by rfl, by rfl, by rfl⟩, ⟨by decide, by rfl, by rfl, by rfl⟩⟩

/-- C16. When the newly decoded map has the member count of the authoritative
map before the sync, `update_from_paxos` returns true having replaced the
authoritative map by the decoded one and the cached blob by the committed
blob; the call log is as before (no `_update_whoami`, no `call_election`, no
`win_election`) and `whoami` is unchanged, whatever the addresses are. -/
theorem update_from_paxos_same_size (s : MonmapMonitor Addr) (bl : bufferlist Addr)
    (newmap : MonMap Addr)
    (hv : s.mon.monmap.epoch < s.paxos.last_committed)
    (hread : s.paxos.store s.paxos.last_committed = some bl)
    (hdec : MonMap.decode bl = some newmap)
    (hsize : s.mon.monmap.size = newmap.size) :
    update_from_paxos s = Result.ret true (update_from_paxos_synced s bl newmap) ∧
    (update_from_paxos s).state.mon.monmap = newmap ∧
    (update_from_paxos s).state.monmap_bl = bl ∧
    (update_from_paxos s).state.paxos.latest_bl = bl ∧
    (update_from_paxos s).state.mon.log = s.mon.log ∧
    (update_from_paxos s).state.mon.whoami = s.mon.whoami ∧
    (update_from_paxos s).state.pending_map = s.pending_map := by
  have hrun := update_from_paxos_newer s bl newmap hv hread hdec
  rw [if_neg (not_not.mpr hsize)] at hrun
  rw [hrun]
  exact ⟨rfl, rfl, rfl, rfl, rfl, rfl, rfl⟩

/-- C16 at an address swap at constant size: `[A, B]` becomes `[A, C]`. -/
theorem update_from_paxos_same_size_witness :
    update_from_paxos demoSwap =
      Result.ret true
        (update_from_paxos_synced demoSwap (MonMap.encode ⟨2, ["A", "C"], 7⟩)
          ⟨2, ["A", "C"], 7⟩) ∧
    (update_from_paxos demoSwap).state.mon.monmap = ⟨2, ["A", "C"], 7⟩ ∧
    (update_from_paxos demoSwap).state.monmap_bl = MonMap.encode ⟨2, ["A", "C"], 7⟩ ∧
    (update_from_paxos demoSwap).state.paxos.latest_bl =
      MonMap.encode ⟨2, ["A", "C"], 7⟩ ∧
    (update_from_paxos demoSwap).state.mon.log = demoSwap.mon.log ∧
    (update_from_paxos demoSwap).state.mon.whoami = demoSwap.mon.whoami ∧
    (update_from_paxos demoSwap).state.pending_map = demoSwap.pending_map :=
  update_from_paxos_same_size demoSwap (MonMap.encode ⟨2, ["A", "C"], 7⟩)
    ⟨2, ["A", "C"], 7⟩ (by decide) (by rfl) (by rfl) (by rfl)

end SyncMore

/-! ## Wire encoding and the pending fork -/

/-- Reading back the address fields written by `encode`. -/
theorem decode_addrs_encode {Addr : Type} (l : List Addr) (rest : bufferlist Addr) :
    MonMap.decode_addrs l.length (l.map WireItem.addr ++ rest) = some (l, rest) := by
  induction l with
  | nil => rfl
  | cons a l ih =>
    show (match MonMap.decode_addrs l.length (l.map WireItem.addr ++ rest) with
      | some (as, r) => some (a :: as, r)
      | none => none) = some (a :: l, rest)
    rw [ih]

/-- Decoding an encoded map gives the map back. -/
theorem decode_encode {Addr : Type} (m : MonMap Addr) :
    MonMap.decode m.encode = some m := by
  simp only [MonMap.encode, MonMap.decode, decode_addrs_encode]

/-- C13. The two-token command `[c0, "getmap"]` is handled by
`preprocess_command` with one reply of code 0 whose payload is the encoding of
the authoritative map; decoding the payload gives back the authoritative map
(epoch, ordered member list, last_changed); the query leaves the service
state, apart from the call log, as it was. -/
theorem preprocess_command_getmap {Addr : Type} (env : Env Addr) (s : MonmapMonitor Addr) (c0 : String) :
    preprocess_command env s ⟨[c0, "getmap"]⟩ =
      Result.ret true
        { s with mon := { s.mon with log := s.mon.log ++
            [Event.reply_command ⟨[c0, "getmap"]⟩ 0 "got latest monmap"
              s.mon.monmap.encode s.paxos.last_committed] } } ∧
    MonMap.decode s.mon.monmap.encode = some s.mon.monmap ∧
    (preprocess_command env s ⟨[c0, "getmap"]⟩).state.mon.monmap = s.mon.monmap := by
  have hrun : preprocess_command env s ⟨[c0, "getmap"]⟩ =
      Result.ret true
        { s with mon := { s.mon with log := s.mon.log ++
            [Event.reply_command ⟨[c0, "getmap"]⟩ 0 "got latest monmap"
              s.mon.monmap.encode s.paxos.last_committed] } } := by
    have hline : getline "got latest monmap" = "got latest monmap" := by decide
    simp [preprocess_command, preprocess_command_finish, Monitor.reply_command, hline]
  refine ⟨hrun, decode_encode _, ?_⟩
  rw [hrun]
  rfl

section Pending

variable {Addr : Type} [DecidableEq Addr]

/-- What a single `prepare_command` leaves alone: the epoch of the pending
fork, the authoritative map, the id and the committed version and store of
the consensus log. -/
theorem prepare_command_frame (env : Env Addr) (now : utime_t) (s : MonmapMonitor Addr)
    (m : MMonCommand) :
    (prepare_command env now s m).2.pending_map.epoch = s.pending_map.epoch ∧
    (prepare_command env now s m).2.mon.monmap = s.mon.monmap ∧
    (prepare_command env now s m).2.mon.whoami = s.mon.whoami ∧
    (prepare_command env now s m).2.mon.myaddr = s.mon.myaddr ∧
    (prepare_command env now s m).2.paxos.last_committed = s.paxos.last_committed ∧
    (prepare_command env now s m).2.paxos.store = s.paxos.store := by
  unfold prepare_command prepare_command_out
  dsimp only
  split_ifs <;> exact ⟨rfl, rfl, rfl, rfl, rfl, rfl⟩

/-- What a run of `prepare_command` calls leaves alone. -/
theorem prepare_commands_frame (env : Env Addr) (cmds : List (utime_t × MMonCommand)) :
    ∀ s : MonmapMonitor Addr,
      (prepare_commands env cmds s).pending_map.epoch = s.pending_map.epoch ∧
      (prepare_commands env cmds s).mon.monmap = s.mon.monmap ∧
      (prepare_commands env cmds s).mon.whoami = s.mon.whoami ∧
      (prepare_commands env cmds s).mon.myaddr = s.mon.myaddr ∧
      (prepare_commands env cmds s).paxos.last_committed = s.paxos.last_committed ∧
      (prepare_commands env cmds s).paxos.store = s.paxos.store := by
  induction cmds with
  | nil => intro s; exact ⟨rfl, rfl, rfl, rfl, rfl, rfl⟩
  | cons c cs ih =>
    intro s
    obtain ⟨h1, h2, h3, h4, h5, h6⟩ := ih (prepare_command env c.1 s c.2).2
    obtain ⟨g1, g2, g3, g4, g5, g6⟩ := prepare_command_frame env c.1 s c.2
    simp only [prepare_commands]
    exact ⟨h1.trans g1, h2.trans g2, h3.trans g3, h4.trans g4, h5.trans g5, h6.trans g6⟩

/-- C17. If no two members of the pending fork share an address, the same
holds after `prepare_command`, for every command. -/
theorem prepare_command_nodup (env : Env Addr) (now : utime_t) (s : MonmapMonitor Addr)
    (m : MMonCommand) (h : s.pending_map.mon_inst.Nodup) :
    (prepare_command env now s m).2.pending_map.mon_inst.Nodup := by
  unfold prepare_command prepare_command_out
  dsimp only
  split_ifs with h1 h2 h3 h4 h5
  · exact h
  · have hnot : env.parse (m.cmd.getD 2 "") ∉ s.pending_map.mon_inst := by
      simpa [MonMap.contains] using h3
    show (s.pending_map.mon_inst ++ [env.parse (m.cmd.getD 2 "")]).Nodup
    rw [List.nodup_append]
    refine ⟨h, List.nodup_singleton _, ?_⟩
    intro a ha hb
    rw [List.mem_singleton] at hb
    exact hnot (hb ▸ ha)
  · show (s.pending_map.mon_inst.erase (env.parse (m.cmd.getD 2 ""))).Nodup
    exact h.erase _
  · exact h
  · exact h
  · exact h

/-- C17 at `add D` on the pending fork `[A, B, C]`. -/
theorem prepare_command_nodup_witness :
    (prepare_command demoEnv 9 demoService ⟨["mon", "add", "D"]⟩).2.pending_map.mon_inst.Nodup :=
  prepare_command_nodup demoEnv 9 demoService ⟨["mon", "add", "D"]⟩ (by decide)

/-- The pending fork after `create_pending` and a run of `prepare_command`
calls: its epoch is the authoritative epoch plus one, the authoritative map is
as before, and `encode_pending` returns its encoding. -/
theorem prepare_commands_after_create (env : Env Addr) (now : utime_t)
    (cmds : List (utime_t × MMonCommand)) (s : MonmapMonitor Addr) :
    (prepare_commands env cmds (create_pending now s)).pending_map.epoch =
      (prepare_commands env cmds (create_pending now s)).mon.monmap.epoch + 1 ∧
    (prepare_commands env cmds (create_pending now s)).mon.monmap = s.mon.monmap ∧
    encode_pending (prepare_commands env cmds (create_pending now s)) =
      Result.ret (prepare_commands env cmds (create_pending now s)).pending_map.encode
        (prepare_commands env cmds (create_pending now s)) := by
  obtain ⟨h1, h2, _, _, _, _⟩ := prepare_commands_frame env cmds (create_pending now s)
  have hep : (prepare_commands env cmds (create_pending now s)).pending_map.epoch =
      (prepare_commands env cmds (create_pending now s)).mon.monmap.epoch + 1 := by
    rw [h1, h2]; rfl
  refine ⟨hep, h2, ?_⟩
  unfold encode_pending
  rw [if_pos (Or.inl hep.symm)]

/-- C18. After `create_pending` and any run of `prepare_command` calls the
pending epoch is still the authoritative epoch plus one, so the assertion of
`encode_pending` holds and it returns the encoding of the pending fork.
`create_pending` leaves the authoritative map as it was and gives the pending
fork the authoritative member list. -/
theorem encode_pending_after_prepare (env : Env Addr) (now : utime_t)
    (cmds : List (utime_t × MMonCommand)) (s : MonmapMonitor Addr) :
    (prepare_commands env cmds (create_pending now s)).pending_map.epoch =
      (prepare_commands env cmds (create_pending now s)).mon.monmap.epoch + 1 ∧
    (prepare_commands env cmds (create_pending now s)).mon.monmap = s.mon.monmap ∧
    encode_pending (prepare_commands env cmds (create_pending now s)) =
      Result.ret (prepare_commands env cmds (create_pending now s)).pending_map.encode
        (prepare_commands env cmds (create_pending now s)) ∧
    (create_pending now s).mon.monmap = s.mon.monmap ∧
    (create_pending now s).pending_map.mon_inst = s.mon.monmap.mon_inst ∧
    (create_pending now s).pending_map.epoch = s.mon.monmap.epoch + 1 := by
  obtain ⟨hep, hmap, henc⟩ := prepare_commands_after_create env now cmds s
  exact ⟨hep, hmap, henc, rfl, rfl, rfl⟩

end Pending

/-! ## Mutation cycles and the epoch -/

section Cycles

variable {Addr : Type} [DecidableEq Addr]

/-- With a negative id the first lookup of `_update_whoami` is outside the
map and the run stops there, the monitor untouched. -/
theorem update_whoami_negative (mon : Monitor Addr) (hw : mon.whoami < 0) :
    _update_whoami mon = Result.aborted mon := by
  have hlt : mon.whoami < (mon.monmap.size : Int) :=
    lt_of_lt_of_le hw (Int.ofNat_nonneg _)
  have hnot : ¬ (0 ≤ mon.whoami) := not_le.mpr hw
  simp [_update_whoami, hlt, MonMap.get_inst, hnot]

/-- From a non-negative id `_update_whoami` returns, with the epoch of the
map as before and an id that is again non-negative. -/
theorem update_whoami_frame (mon : Monitor Addr) (hw : 0 ≤ mon.whoami) :
    ∃ mon1, _update_whoami mon = Result.ret () mon1 ∧
      mon1.monmap.epoch = mon.monmap.epoch ∧ 0 ≤ mon1.whoami := by
  obtain ⟨w, hw'⟩ := Int.eq_ofNat_of_zero_le hw
  rcases update_whoami_cases mon w hw' with ⟨_, hres⟩ | ⟨p, _, _, _, hres⟩ | ⟨_, hres⟩
  · exact ⟨_, hres, rfl, hw⟩
  · exact ⟨_, hres, rfl, Int.ofNat_nonneg p⟩
  · exact ⟨_, hres, rfl, hw⟩

/-- The epoch of the map at the end of a run of `_update_whoami`, returned or
stopped, is the epoch at its start. -/
theorem update_whoami_state_epoch (mon : Monitor Addr) :
    (_update_whoami mon).state.monmap.epoch = mon.monmap.epoch := by
  by_cases hw : 0 ≤ mon.whoami
  · obtain ⟨mon1, hres, hep, _⟩ := update_whoami_frame mon hw
    rw [hres]; exact hep
  · rw [update_whoami_negative mon (not_le.mp hw)]; rfl

/-- A sync to a newer version: at its end the authoritative epoch is the
epoch of the decoded map, and from a non-negative id the sync returns true,
the committed version as before and the id non-negative. -/
theorem update_from_paxos_newer_epoch (s : MonmapMonitor Addr) (bl : bufferlist Addr)
    (newmap : MonMap Addr)
    (hv : s.mon.monmap.epoch < s.paxos.last_committed)
    (hread : s.paxos.store s.paxos.last_committed = some bl)
    (hdec : MonMap.decode bl = some newmap) :
    (update_from_paxos s).state.mon.monmap.epoch = newmap.epoch ∧
    (0 ≤ s.mon.whoami → ∃ s1, update_from_paxos s = Result.ret true s1 ∧
      s1.mon.monmap.epoch = newmap.epoch ∧
      s1.paxos.last_committed = s.paxos.last_committed ∧ 0 ≤ s1.mon.whoami) := by
  have hrun := update_from_paxos_newer s bl newmap hv hread hdec
  by_cases hsize : s.mon.monmap.size ≠ newmap.size
  · rw [if_pos hsize] at hrun
    constructor
    · have hst := update_whoami_state_epoch (update_from_paxos_synced s bl newmap).mon
      rw [hrun]
      cases hres : _update_whoami (update_from_paxos_synced s bl newmap).mon with
      | aborted mon1 =>
        rw [hres] at hst
        exact hst
      | ret v mon1 =>
        rw [hres] at hst
        by_cases hbig : mon1.monmap.size > 1
        · simp only [hbig, if_true]; exact hst
        · simp only [hbig, if_false]; exact hst
    · intro hwho
      obtain ⟨mon1, hres, hep, hpos⟩ :=
        update_whoami_frame (update_from_paxos_synced s bl newmap).mon hwho
      rw [hres] at hrun
      by_cases hbig : mon1.monmap.size > 1
      · simp only [hbig, if_true] at hrun
        exact ⟨_, hrun, hep, rfl, hpos⟩
      · simp only [hbig, if_false] at hrun
        exact ⟨_, hrun, hep, rfl, hpos⟩
  · rw [if_neg hsize] at hrun
    rw [hrun]
    exact ⟨rfl, fun hwho => ⟨_, rfl, rfl, rfl, hwho⟩⟩

/-- One mutation cycle from a synced state: at its end the authoritative
epoch is one more than before, and from a non-negative id the cycle returns
in a state that is synced again, with a non-negative id. -/
theorem mutation_cycle_spec (env : Env Addr) (now : utime_t)
    (cmds : List (utime_t × MMonCommand)) (s : MonmapMonitor Addr)
    (hsync : s.paxos.last_committed = s.mon.monmap.epoch) :
    (mutation_cycle env now cmds s).state.mon.monmap.epoch = s.mon.monmap.epoch + 1 ∧
    (0 ≤ s.mon.whoami → ∃ s1, mutation_cycle env now cmds s = Result.ret true s1 ∧
      s1.mon.monmap.epoch = s.mon.monmap.epoch + 1 ∧
      s1.paxos.last_committed = s1.mon.monmap.epoch ∧ 0 ≤ s1.mon.whoami) := by
  obtain ⟨hep, hmap, henc⟩ := prepare_commands_after_create env now cmds s
  obtain ⟨_, _, hwho2, _, hlc, _⟩ := prepare_commands_frame env cmds (create_pending now s)
  have hlc2 : (prepare_commands env cmds (create_pending now s)).paxos.last_committed =
      s.mon.monmap.epoch := by rw [hlc]; exact hsync
  have hcyc : mutation_cycle env now cmds s =
      update_from_paxos
        { prepare_commands env cmds (create_pending now s) with
          paxos := (prepare_commands env cmds (create_pending now s)).paxos.commit
            (prepare_commands env cmds (create_pending now s)).pending_map.encode } := by
    unfold mutation_cycle
    rw [henc]
  have hpe : (prepare_commands env cmds (create_pending now s)).pending_map.epoch =
      s.mon.monmap.epoch + 1 := by rw [hep, hmap]
  obtain ⟨h1, h2⟩ := update_from_paxos_newer_epoch
    { prepare_commands env cmds (create_pending now s) with
      paxos := (prepare_commands env cmds (create_pending now s)).paxos.commit
        (prepare_commands env cmds (create_pending now s)).pending_map.encode }
    (prepare_commands env cmds (create_pending now s)).pending_map.encode
    (prepare_commands env cmds (create_pending now s)).pending_map
    (by
      show (prepare_commands env cmds (create_pending now s)).mon.monmap.epoch <
        (prepare_commands env cmds (create_pending now s)).paxos.last_committed + 1
      rw [hmap, hlc2]; exact Nat.lt_succ_self _)
    (by simp [Paxos.commit])
    (decode_encode _)
  rw [hcyc]
  refine ⟨h1.trans hpe, ?_⟩
  intro hwho
  obtain ⟨s1, hret, hep1, hlc1, hpos⟩ := h2 (by
    show 0 ≤ (prepare_commands env cmds (create_pending now s)).mon.whoami
    rw [hwho2]; exact hwho)
  refine ⟨s1, hret, hep1.trans hpe, ?_, hpos⟩
  rw [hlc1, hep1, hpe]
  show (prepare_commands env cmds (create_pending now s)).paxos.last_committed + 1 = _
  rw [hlc2]

/-- A sequence of mutation cycles from a synced state with a non-negative id
returns, and the authoritative epoch has advanced by the number of cycles. -/
theorem mutation_cycles_spec (env : Env Addr)
    (cycles : List (utime_t × List (utime_t × MMonCommand))) :
    ∀ s : MonmapMonitor Addr, s.paxos.last_committed = s.mon.monmap.epoch →
      0 ≤ s.mon.whoami →
      ∃ s2, mutation_cycles env cycles s = Result.ret true s2 ∧
        s2.mon.monmap.epoch = s.mon.monmap.epoch + cycles.length := by
  induction cycles with
  | nil => intro s _ _; exact ⟨s, rfl, rfl⟩
  | cons c cs ih =>
    intro s hsync hwho
    obtain ⟨s1, hret, hep, hsync1, hpos⟩ := (mutation_cycle_spec env c.1 c.2 s hsync).2 hwho
    obtain ⟨s2, hret2, hep2⟩ := ih s1 hsync1 hpos
    refine ⟨s2, ?_, ?_⟩
    · simp only [mutation_cycles, hret, hret2]
    · rw [hep2, hep, List.length_cons]; omega

/-- C12. Starting from a synced state with authoritative epoch `e`, one cycle
`create_pending`, any run of `prepare_command` calls, `encode_pending`, commit
of the encoded bytes as the next version, `update_from_paxos` ends with the
authoritative epoch `e + 1`; with a non-negative id the cycle returns in a
state that is synced again, so a sequence of `n` such cycles ends with epoch
`e + n`: the epoch strictly increases, by one per cycle. -/
theorem mutation_cycle_epoch (env : Env Addr) (s : MonmapMonitor Addr)
    (hsync : s.paxos.last_committed = s.mon.monmap.epoch) :
    (∀ (now : utime_t) (cmds : List (utime_t × MMonCommand)),
      (mutation_cycle env now cmds s).state.mon.monmap.epoch = s.mon.monmap.epoch + 1) ∧
    (0 ≤ s.mon.whoami →
      (∀ (now : utime_t) (cmds : List (utime_t × MMonCommand)),
        ∃ s1, mutation_cycle env now cmds s = Result.ret true s1 ∧
          s1.mon.monmap.epoch = s.mon.monmap.epoch + 1 ∧
          s1.paxos.last_committed = s1.mon.monmap.epoch ∧ 0 ≤ s1.mon.whoami) ∧
      (∀ cycles : List (utime_t × List (utime_t × MMonCommand)),
        ∃ s2, mutation_cycles env cycles s = Result.ret true s2 ∧
          s2.mon.monmap.epoch = s.mon.monmap.epoch + cycles.length)) := by
  refine ⟨fun now cmds => (mutation_cycle_spec env now cmds s hsync).1, ?_⟩
  intro hwho
  exact ⟨fun now cmds => (mutation_cycle_spec env now cmds s hsync).2 hwho,
    fun cycles => mutation_cycles_spec env cycles s hsync hwho⟩

/-- C12 at the synced service on `epoch 1, [A, B, C]`: the cycle that removes
A ends with epoch 2, and that cycle followed by one that adds D ends with
epoch 3. -/
theorem mutation_cycle_epoch_witness :
    (mutation_cycle demoEnv 5 [(6, ⟨["mon", "remove", "A"]⟩)] demoSynced).state.mon.monmap.epoch =
      demoSynced.mon.monmap.epoch + 1 ∧
    (∃ s2, mutation_cycles demoEnv
        [(5, [(6, ⟨["mon", "remove", "A"]⟩)]), (7, [(8, ⟨["mon", "add", "D"]⟩)])]
        demoSynced = Result.ret true s2 ∧
      s2.mon.monmap.epoch = demoSynced.mon.monmap.epoch + 2) :=
  ⟨(mutation_cycle_epoch demoEnv demoSynced (by decide)).1 5
      [(6, ⟨["mon", "remove", "A"]⟩)],
   ((mutation_cycle_epoch demoEnv demoSynced (by decide)).2 (by decide)).2
      [(5, [(6, ⟨["mon", "remove", "A"]⟩)]), (7, [(8, ⟨["mon", "add", "D"]⟩)])]⟩

end Cycles

/-! ## Identity resolver: when it re-inserts, what it leaves, what it looks up -/

section WhoamiMore

variable {Addr : Type} [DecidableEq Addr]

/-- C14 (as amended). On a map with pairwise distinct addresses and from a
non-negative id `w`, `_update_whoami` returns; it re-inserts the own address
and initiates shutdown exactly when no id at or below `w` is bound to the own
address; otherwise the map is untouched and no shutdown is initiated.  When
the own address is bound to an id at or below `w`, or to no id at all, the
resulting map again has pairwise distinct addresses. -/
theorem update_whoami_reinsert_iff (mon : Monitor Addr) (hw : 0 ≤ mon.whoami)
    (hnd : mon.monmap.mon_inst.Nodup) :
    ∃ mon1, _update_whoami mon = Result.ret () mon1 ∧
      ((mon1.monmap = mon.monmap.add mon.myaddr ∧
          mon1.log = mon.log ++
            [Event.set_myname (mon.monmap.size : Int), Event.shutdown]) ↔
        (∀ i : Nat, (i : Int) ≤ mon.whoami →
          mon.monmap.mon_inst[i]? ≠ some mon.myaddr)) ∧
      ((∃ i : Nat, (i : Int) ≤ mon.whoami ∧
          mon.monmap.mon_inst[i]? = some mon.myaddr) →
        mon1.monmap = mon.monmap ∧
        (mon1.log = mon.log ∨ mon1.log = mon.log ++ [Event.set_myname mon1.whoami])) ∧
      ((mon.myaddr ∉ mon.monmap.mon_inst ∨
          ∃ i : Nat, (i : Int) ≤ mon.whoami ∧
            mon.monmap.mon_inst[i]? = some mon.myaddr) →
        mon1.monmap.mon_inst.Nodup) := by
  obtain ⟨w, hw'⟩ := Int.eq_ofNat_of_zero_le hw
  have hadd : mon.monmap ≠ mon.monmap.add mon.myaddr := by
    intro h
    have hlen := congrArg (fun m => m.mon_inst.length) h
    simp [MonMap.add] at hlen
  have hle : ∀ i : Nat, (i : Int) ≤ mon.whoami ↔ i ≤ w := by
    intro i; rw [hw']; exact Int.ofNat_le
  rcases update_whoami_cases mon w hw' with
    ⟨hfirst, hres⟩ | ⟨p, hp, hpa, _, hres⟩ | ⟨hnone, hres⟩
  · refine ⟨_, hres, ?_, ?_, ?_⟩
    · constructor
      · intro h; exact absurd h.1 hadd
      · intro h; exact absurd hfirst (h w ((hle w).mpr (le_refl w)))
    · intro _; exact ⟨rfl, Or.inl rfl⟩
    · intro _; exact hnd
  · refine ⟨_, hres, ?_, ?_, ?_⟩
    · constructor
      · intro h; exact absurd h.1 hadd
      · intro h; exact absurd hpa (h p ((hle p).mpr (Nat.le_of_lt hp)))
    · intro _; exact ⟨rfl, Or.inr rfl⟩
    · intro _; exact hnd
  · refine ⟨_, hres, ?_, ?_, ?_⟩
    · constructor
      · intro _ i hi; exact hnone i ((hle i).mp hi)
      · intro _
        refine ⟨rfl, ?_⟩
        simp [Monitor.shutdown, Monitor.set_myname]
    · rintro ⟨i, hi, hia⟩
      exact absurd hia (hnone i ((hle i).mp hi))
    · intro h
      rcases h with habs | ⟨i, hi, hia⟩
      · show (mon.monmap.mon_inst ++ [mon.myaddr]).Nodup
        rw [List.nodup_append]
        refine ⟨hnd, List.nodup_singleton _, ?_⟩
        intro a ha hb
        rw [List.mem_singleton] at hb
        exact habs (hb ▸ ha)
      · exact absurd hia (hnone i ((hle i).mp hi))

/-- C14 at the map `[A, C]` with own address B and id 1: B is bound to no id,
it is re-inserted and the map `[A, C, B]` has distinct addresses. -/
theorem update_whoami_reinsert_iff_witness :
    ∃ mon1, _update_whoami (demoMon 1 "B" ⟨2, ["A", "C"], 0⟩) = Result.ret () mon1 ∧
      ((mon1.monmap = (⟨2, ["A", "C"], 0⟩ : MonMap String).add "B" ∧
          mon1.log = (demoMon 1 "B" ⟨2, ["A", "C"], 0⟩).log ++
            [Event.set_myname ((demoMon 1 "B" ⟨2, ["A", "C"], 0⟩).monmap.size : Int),
             Event.shutdown]) ↔
        (∀ i : Nat, (i : Int) ≤ (demoMon 1 "B" ⟨2, ["A", "C"], 0⟩).whoami →
          (demoMon 1 "B" ⟨2, ["A", "C"], 0⟩).monmap.mon_inst[i]? ≠ some "B")) ∧
      ((∃ i : Nat, (i : Int) ≤ (demoMon 1 "B" ⟨2, ["A", "C"], 0⟩).whoami ∧
          (demoMon 1 "B" ⟨2, ["A", "C"], 0⟩).monmap.mon_inst[i]? = some "B") →
        mon1.monmap = (demoMon 1 "B" ⟨2, ["A", "C"], 0⟩).monmap ∧
        (mon1.log = (demoMon 1 "B" ⟨2, ["A", "C"], 0⟩).log ∨
          mon1.log = (demoMon 1 "B" ⟨2, ["A", "C"], 0⟩).log ++
            [Event.set_myname mon1.whoami])) ∧
      (("B" ∉ (demoMon 1 "B" ⟨2, ["A", "C"], 0⟩).monmap.mon_inst ∨
          ∃ i : Nat, (i : Int) ≤ (demoMon 1 "B" ⟨2, ["A", "C"], 0⟩).whoami ∧
            (demoMon 1 "B" ⟨2, ["A", "C"], 0⟩).monmap.mon_inst[i]? = some "B") →
        mon1.monmap.mon_inst.Nodup) :=
  update_whoami_reinsert_iff (demoMon 1 "B" ⟨2, ["A", "C"], 0⟩) (by decide) (by decide)

/-- C14 (as stated) fails. Map `[B, A]` with distinct addresses, own address
A, id 0: A is bound to id 1, above the current id, where the backward scan
does not look.  `_update_whoami` re-inserts A and initiates shutdown, and the
map `[B, A, A]` has two members sharing an address. -/
theorem update_whoami_reinsert_counterexample :
    (demoMon 0 "A" ⟨1, ["B", "A"], 0⟩).monmap.mon_inst.Nodup ∧
    0 ≤ (demoMon 0 "A" ⟨1, ["B", "A"], 0⟩).whoami ∧
    (demoMon 0 "A" ⟨1, ["B", "A"], 0⟩).monmap.mon_inst[1]? = some "A" ∧
    _update_whoami (demoMon 0 "A" ⟨1, ["B", "A"], 0⟩) =
      Result.ret ()
        { demoMon 0 "A" ⟨1, ["B", "A", "A"], 0⟩ with
          log := [Event.set_myname 2, Event.shutdown] } ∧
    ¬ (["B", "A", "A"] : List String).Nodup := by
  refine ⟨by decide, by decide, by rfl, by rfl, by decide⟩

/-- C15. From a non-negative id `w`, if `_update_whoami` returns without
initiating shutdown, then the id `w1` it leaves satisfies `w1 ≤ w` and
`w1 < size`, the map binds `w1` to the own address and the map is unchanged.
If `w` was bound to the own address then `w1 = w` and no call is made;
otherwise `w1` is the largest id below `w` bound to the own address and the
single call is `set_myname(w1)`. -/
theorem update_whoami_no_shutdown (mon mon1 : Monitor Addr) (w : Nat)
    (hw : mon.whoami = (w : Int))
    (hret : _update_whoami mon = Result.ret () mon1)
    (hns : ∀ ev, mon1.log = mon.log ++ ev → Event.shutdown ∉ ev) :
    ∃ w1 : Nat, mon1.whoami = (w1 : Int) ∧ w1 ≤ w ∧ w1 < mon.monmap.size ∧
      mon1.monmap.get_inst mon1.whoami = some ⟨w1, mon.myaddr⟩ ∧
      mon1.monmap = mon.monmap ∧
      (mon.monmap.mon_inst[w]? = some mon.myaddr → w1 = w ∧ mon1.log = mon.log) ∧
      (mon.monmap.mon_inst[w]? ≠ some mon.myaddr →
        w1 < w ∧
        (∀ i : Nat, w1 < i → i < w → mon.monmap.mon_inst[i]? ≠ some mon.myaddr) ∧
        mon1.log = mon.log ++ [Event.set_myname (w1 : Int)]) := by
  have hinj : ∀ a b : Monitor Addr,
      (Result.ret () a : Result (Monitor Addr) Unit) = Result.ret () b → a = b := by
    intro a b h; injection h
  have hsize : ∀ i : Nat, mon.monmap.mon_inst[i]? = some mon.myaddr →
      i < mon.monmap.size := by
    intro i h; exact (List.getElem?_eq_some.mp h).1
  rcases update_whoami_cases mon w hw with
    ⟨hfirst, hres⟩ | ⟨p, hp, hpa, hab, hres⟩ | ⟨_, hres⟩
  · have hm : mon1 = mon := (hinj _ _ (hres.symm.trans hret)).symm
    subst hm
    refine ⟨w, hw, le_refl w, hsize w hfirst, ?_, rfl, fun _ => ⟨rfl, rfl⟩, ?_⟩
    · rw [hw, get_inst_natCast, hfirst]; rfl
    · intro h; exact absurd hfirst h
  · have hm : mon1 = { mon with whoami := (p : Int) }.set_myname (p : Int) :=
      (hinj _ _ (hres.symm.trans hret)).symm
    subst hm
    refine ⟨p, rfl, Nat.le_of_lt hp, hsize p hpa, ?_, rfl, ?_, ?_⟩
    · show mon.monmap.get_inst (p : Int) = _
      rw [get_inst_natCast, hpa]; rfl
    · intro h; exact absurd h (hab w hp (le_refl w))
    · intro _
      exact ⟨hp, fun i h1 h2 => hab i h1 (Nat.le_of_lt h2), rfl⟩
  · have hm : mon1 = { (mon.set_myname (mon.monmap.size : Int)) with
        monmap := mon.monmap.add mon.myaddr }.shutdown :=
      (hinj _ _ (hres.symm.trans hret)).symm
    subst hm
    exact absurd (by simp)
      (hns [Event.set_myname (mon.monmap.size : Int), Event.shutdown]
        (by simp [Monitor.shutdown, Monitor.set_myname]))

/-- C15 at the map `[B, C]` with own address C and id 2: the run returns with
id 1 after the single call `set_myname(1)`. -/
theorem update_whoami_no_shutdown_witness :
    ∃ w1 : Nat,
      ({ demoMon 1 "C" ⟨2, ["B", "C"], 0⟩ with log := [Event.set_myname 1] } :
        Monitor String).whoami = (w1 : Int) ∧ w1 ≤ 2 ∧
      w1 < (demoMon 2 "C" ⟨2, ["B", "C"], 0⟩).monmap.size ∧
      ({ demoMon 1 "C" ⟨2, ["B", "C"], 0⟩ with log := [Event.set_myname 1] } :
        Monitor String).monmap.get_inst
          ({ demoMon 1 "C" ⟨2, ["B", "C"], 0⟩ with log := [Event.set_myname 1] } :
            Monitor String).whoami = some ⟨w1, "C"⟩ ∧
      ({ demoMon 1 "C" ⟨2, ["B", "C"], 0⟩ with log := [Event.set_myname 1] } :
        Monitor String).monmap = (demoMon 2 "C" ⟨2, ["B", "C"], 0⟩).monmap ∧
      ((demoMon 2 "C" ⟨2, ["B", "C"], 0⟩).monmap.mon_inst[2]? = some "C" →
        w1 = 2 ∧
        ({ demoMon 1 "C" ⟨2, ["B", "C"], 0⟩ with log := [Event.set_myname 1] } :
          Monitor String).log = (demoMon 2 "C" ⟨2, ["B", "C"], 0⟩).log) ∧
      ((demoMon 2 "C" ⟨2, ["B", "C"], 0⟩).monmap.mon_inst[2]? ≠ some "C" →
        w1 < 2 ∧
        (∀ i : Nat, w1 < i → i < 2 →
          (demoMon 2 "C" ⟨2, ["B", "C"], 0⟩).monmap.mon_inst[i]? ≠ some "C") ∧
        ({ demoMon 1 "C" ⟨2, ["B", "C"], 0⟩ with log := [Event.set_myname 1] } :
          Monitor String).log =
            (demoMon 2 "C" ⟨2, ["B", "C"], 0⟩).log ++ [Event.set_myname (w1 : Int)]) :=
  update_whoami_no_shutdown (demoMon 2 "C" ⟨2, ["B", "C"], 0⟩)
    { demoMon 1 "C" ⟨2, ["B", "C"], 0⟩ with log := [Event.set_myname 1] } 2
    (by rfl) (by rfl)
    (by
      intro ev h
      have hev : ev = [Event.set_myname 1] := by simpa [demoMon] using h.symm
      rw [hev]
      decide)

/-- The lookups of a backward scan started at most at the member count: each
id is in `[0, k)`, and there are at most `k` of them. -/
theorem update_whoami_scan_lookups_spec (mon : Monitor Addr) :
    ∀ k : Nat, k ≤ mon.monmap.size →
      (∀ i ∈ _update_whoami_scan_lookups mon k, 0 ≤ i ∧ i < (k : Int)) ∧
      (_update_whoami_scan_lookups mon k).length ≤ k := by
  intro k
  induction k with
  | zero =>
    intro _
    exact ⟨fun i hi => absurd hi (List.not_mem_nil i), Nat.le_refl 0⟩
  | succ k ih =>
    intro hk
    obtain ⟨ih1, ih2⟩ := ih (Nat.le_of_succ_le hk)
    have hhead : (0 : Int) ≤ (k : Int) ∧ (k : Int) < ((k + 1 : Nat) : Int) :=
      ⟨Int.ofNat_nonneg k, by omega⟩
    have hwide : ∀ i : Int, 0 ≤ i ∧ i < (k : Int) → 0 ≤ i ∧ i < ((k + 1 : Nat) : Int) := by
      intro i h; exact ⟨h.1, by omega⟩
    simp only [_update_whoami_scan_lookups]
    cases hget : mon.monmap.get_inst (k : Int) with
    | none =>
      refine ⟨?_, by simp⟩
      intro i hi
      rw [List.mem_singleton] at hi
      rw [hi]; exact hhead
    | some inst =>
      by_cases heq : inst.addr = mon.myaddr
      · simp only [heq, if_true]
        refine ⟨?_, by simp⟩
        intro i hi
        rw [List.mem_singleton] at hi
        rw [hi]; exact hhead
      · simp only [heq, if_false]
        refine ⟨?_, by simp only [List.length_cons]; omega⟩
        intro i hi
        rcases List.mem_cons.mp hi with h | h
        · rw [h]; exact hhead
        · exact hwide i (ih1 i h)

/-- C20. From a non-negative id `w`, on every map (the empty one included),
every id that `_update_whoami` passes to `get_inst` lies in `[0, size)`; the
backward scan makes at most `min w size` lookups; and the run returns, no
lookup having failed. -/
theorem update_whoami_lookups_in_range (mon : Monitor Addr) (w : Nat)
    (hw : mon.whoami = (w : Int)) :
    (∀ i ∈ _update_whoami_lookups mon, 0 ≤ i ∧ i < (mon.monmap.size : Int)) ∧
    (_update_whoami_scan_lookups mon
      (min (mon.whoami - 1) ((mon.monmap.size : Int) - 1) + 1).toNat).length ≤
        min w mon.monmap.size ∧
    (_update_whoami mon).returned = true := by
  have hstart : (min (mon.whoami - 1) ((mon.monmap.size : Int) - 1) + 1).toNat =
      min w mon.monmap.size := by
    rw [hw]; exact update_whoami_start w mon.monmap.size
  obtain ⟨hs1, hs2⟩ := update_whoami_scan_lookups_spec mon (min w mon.monmap.size)
    (Nat.min_le_right _ _)
  have hscan : ∀ i ∈ _update_whoami_scan_lookups mon (min w mon.monmap.size),
      0 ≤ i ∧ i < (mon.monmap.size : Int) := by
    intro i hi
    obtain ⟨h1, h2⟩ := hs1 i hi
    have : min w mon.monmap.size ≤ mon.monmap.size := Nat.min_le_right _ _
    exact ⟨h1, by omega⟩
  refine ⟨?_, by rw [hstart]; exact hs2, ?_⟩
  · unfold _update_whoami_lookups
    rw [hstart]
    by_cases hlt : mon.whoami < (mon.monmap.size : Int)
    · rw [if_pos hlt]
      have hhead : 0 ≤ mon.whoami ∧ mon.whoami < (mon.monmap.size : Int) :=
        ⟨by rw [hw]; exact Int.ofNat_nonneg w, hlt⟩
      intro i hi
      rcases List.mem_cons.mp hi with h | h
      · rw [h]; exact hhead
      · cases hget : mon.monmap.get_inst mon.whoami with
        | none => rw [hget] at h; exact absurd h (List.not_mem_nil i)
        | some inst =>
          rw [hget] at h
          by_cases heq : inst.addr = mon.myaddr
          · simp only [heq, if_true] at h; exact absurd h (List.not_mem_nil i)
          · simp only [heq, if_false] at h; exact hscan i h
    · rw [if_neg hlt]
      exact hscan
  · obtain ⟨mon1, hres⟩ := update_whoami_returns mon (by rw [hw]; exact Int.ofNat_nonneg w)
    rw [hres]; rfl

/-- The list of lookups agrees with the run: with a negative id the one
lookup made is outside the map, and the run stops there. -/
theorem update_whoami_lookups_negative (mon : Monitor Addr) (hw : mon.whoami < 0) :
    _update_whoami_lookups mon = [mon.whoami] ∧
    ¬ (0 ≤ mon.whoami ∧ mon.whoami < (mon.monmap.size : Int)) ∧
    (_update_whoami mon).returned = false := by
  have hlt : mon.whoami < (mon.monmap.size : Int) :=
    lt_of_lt_of_le hw (Int.ofNat_nonneg _)
  have hnot : ¬ (0 ≤ mon.whoami) := not_le.mpr hw
  refine ⟨?_, fun h => hnot h.1, ?_⟩
  · simp [_update_whoami_lookups, hlt, MonMap.get_inst, hnot]
  · rw [update_whoami_negative mon hw]; rfl

/-- C20 at the empty map with id 3 (no lookup at all) and at the map `[B, C]`
with own address C and id 2. -/
theorem update_whoami_lookups_in_range_witness :
    ((∀ i ∈ _update_whoami_lookups (demoMon 3 "A" ⟨0, [], 0⟩),
        0 ≤ i ∧ i < ((demoMon 3 "A" ⟨0, [], 0⟩).monmap.size : Int)) ∧
      (_update_whoami_scan_lookups (demoMon 3 "A" ⟨0, [], 0⟩)
        (min ((demoMon 3 "A" ⟨0, [], 0⟩).whoami - 1)
          (((demoMon 3 "A" ⟨0, [], 0⟩).monmap.size : Int) - 1) + 1).toNat).length ≤
          min 3 (demoMon 3 "A" ⟨0, [], 0⟩).monmap.size ∧
      (_update_whoami (demoMon 3 "A" ⟨0, [], 0⟩)).returned = true) ∧
    ((∀ i ∈ _update_whoami_lookups (demoMon 2 "C" ⟨2, ["B", "C"], 0⟩),
        0 ≤ i ∧ i < ((demoMon 2 "C" ⟨2, ["B", "C"], 0⟩).monmap.size : Int)) ∧
      (_update_whoami_scan_lookups (demoMon 2 "C" ⟨2, ["B", "C"], 0⟩)
        (min ((demoMon 2 "C" ⟨2, ["B", "C"], 0⟩).whoami - 1)
          (((demoMon 2 "C" ⟨2, ["B", "C"], 0⟩).monmap.size : Int) - 1) + 1).toNat).length ≤
          min 2 (demoMon 2 "C" ⟨2, ["B", "C"], 0⟩).monmap.size ∧
      (_update_whoami (demoMon 2 "C" ⟨2, ["B", "C"], 0⟩)).returned = true) :=
  ⟨update_whoami_lookups_in_range (demoMon 3 "A" ⟨0, [], 0⟩) 3 (by rfl),
   update_whoami_lookups_in_range (demoMon 2 "C" ⟨2, ["B", "C"], 0⟩) 2 (by rfl)⟩

end WhoamiMore

/-! ## Read path: frame and replies -/

/-- A monitor with nothing appended to its call log is the monitor itself. -/
theorem monitor_log_append_nil {Addr : Type} (mon : Monitor Addr) :
    ({ mon with log := mon.log ++ [] } : Monitor Addr) = mon := by
  cases mon; simp

/-- The broadcast loop only appends `inject_args` calls to the call log,
whether it runs to its end or stops at a failed lookup. -/
theorem inject_args_all_spec {Addr : Type} (args : String) :
    ∀ (fuel i : Nat) (mon : Monitor Addr),
      ∃ inj : List (Event Addr), (∀ e ∈ inj, Event.is_reply e = false) ∧
        (inject_args_all args fuel i mon = Result.ret () { mon with log := mon.log ++ inj } ∨
         inject_args_all args fuel i mon =
          Result.aborted { mon with log := mon.log ++ inj }) := by
  intro fuel
  induction fuel with
  | zero =>
    intro i mon
    refine ⟨[], fun e he => absurd he (List.not_mem_nil e), Or.inl ?_⟩
    rw [monitor_log_append_nil]; rfl
  | succ fuel ih =>
    intro i mon
    cases hget : mon.monmap.get_inst (i : Int) with
    | none =>
      refine ⟨[], fun e he => absurd he (List.not_mem_nil e), Or.inr ?_⟩
      rw [monitor_log_append_nil]
      simp only [inject_args_all, hget]
    | some inst =>
      obtain ⟨inj, hinj, hres⟩ := ih (i + 1) (mon.inject_args inst args)
      refine ⟨Event.inject_args inst args :: inj, ?_, ?_⟩
      · intro e he
        rcases List.mem_cons.mp he with h | h
        · rw [h]; rfl
        · exact hinj e h
      · have hlog : ({ mon.inject_args inst args with
            log := (mon.inject_args inst args).log ++ inj } : Monitor Addr) =
            { mon with log := mon.log ++ Event.inject_args inst args :: inj } := by
          simp [Monitor.inject_args]
        rw [hlog] at hres
        simp only [inject_args_all, hget]
        exact hres

/-- The three outcomes of `preprocess_command`: not handled with the state as
it was; handled with some `inject_args` calls followed by exactly one reply
appended to the call log; or stopped at a failed lookup with only
`inject_args` calls appended. -/
theorem preprocess_command_outcomes {Addr : Type} (env : Env Addr) (s : MonmapMonitor Addr)
    (m : MMonCommand) :
    preprocess_command env s m = Result.ret false s ∨
    (∃ (inj : List (Event Addr)) (rc : Int) (rs : String) (rdata : bufferlist Addr),
      (∀ e ∈ inj, Event.is_reply e = false) ∧
      preprocess_command env s m = Result.ret true
        { s with mon := { s.mon with log := s.mon.log ++ inj ++
            [Event.reply_command m rc rs rdata s.paxos.last_committed] } }) ∨
    (∃ inj : List (Event Addr), (∀ e ∈ inj, Event.is_reply e = false) ∧
      preprocess_command env s m =
        Result.aborted { s with mon := { s.mon with log := s.mon.log ++ inj } }) := by
  have hfin0 : ∀ (rdata : bufferlist Addr) (ss : String),
      preprocess_command_finish s m 0 rdata ss = Result.ret true
        { s with mon := { s.mon with log := s.mon.log ++ [] ++
            [Event.reply_command m 0 (getline ss) rdata s.paxos.last_committed] } } := by
    intro rdata ss
    simp [preprocess_command_finish, Monitor.reply_command]
  have hfinm : ∀ (rdata : bufferlist Addr) (ss : String),
      preprocess_command_finish s m (-1) rdata ss = Result.ret false s := by
    intro rdata ss
    simp [preprocess_command_finish]
  have hnil : ∀ e ∈ ([] : List (Event Addr)), Event.is_reply e = false :=
    fun e he => absurd he (List.not_mem_nil e)
  unfold preprocess_command
  dsimp only
  split_ifs with h1 h2 h3 h4 h5 h6 h7 h8
  · exact Or.inr (Or.inl ⟨[], 0, _, _, hnil, hfin0 _ _⟩)
  · exact Or.inr (Or.inl ⟨[], 0, _, _, hnil, hfin0 _ _⟩)
  · obtain ⟨inj, hinj, hres⟩ :=
      inject_args_all_spec (m.cmd.getD 3 "") s.mon.monmap.size 0 s.mon
    rcases hres with hres | hres
    · rw [hres]
      refine Or.inr (Or.inl ⟨inj, 0, getline "ok bcast", [], hinj, ?_⟩)
      simp [preprocess_command_finish, Monitor.reply_command]
    · rw [hres]
      exact Or.inr (Or.inr ⟨inj, hinj, rfl⟩)
  · cases hget : s.mon.monmap.get_inst (long_to_int (strtol (c_str (m.cmd.getD 2 ""))).1) with
    | none =>
      refine Or.inr (Or.inr ⟨[], hnil, ?_⟩)
      rw [monitor_log_append_nil]
    | some inst =>
      refine Or.inr (Or.inl ⟨[Event.inject_args inst (m.cmd.getD 3 "")], 0, getline "ok", [],
        ?_, ?_⟩)
      · intro e he
        rw [List.mem_singleton] at he
        rw [he]; rfl
      · simp [preprocess_command_finish, Monitor.reply_command, Monitor.inject_args]
  · exact Or.inl (hfinm _ _)
  · exact Or.inl rfl
  · exact Or.inl rfl
  · exact Or.inl (hfinm _ _)
  · exact Or.inl (hfinm _ _)

/-- A list of calls none of which is a reply holds no reply. -/
theorem countP_is_reply_zero {Addr : Type} (inj : List (Event Addr))
    (h : ∀ e ∈ inj, Event.is_reply e = false) : inj.countP Event.is_reply = 0 := by
  rw [List.countP_eq_zero]
  intro e he
  rw [h e he]
  exact Bool.false_ne_true

/-- C19. For every service state and every command, `preprocess_command`
leaves the authoritative map, the pending fork and the id as they were; the
calls it appends to the call log hold exactly one reply if and only if it
returns true; when it returns false the whole state is as before, so no reply
was sent; and a command with fewer than two tokens, or whose name is `add` or
`remove`, is reported as not handled. -/
theorem preprocess_command_read_only {Addr : Type} (env : Env Addr) (s : MonmapMonitor Addr)
    (m : MMonCommand) :
    ((preprocess_command env s m).state.mon.monmap = s.mon.monmap ∧
      (preprocess_command env s m).state.pending_map = s.pending_map ∧
      (preprocess_command env s m).state.mon.whoami = s.mon.whoami) ∧
    (∃ ev : List (Event Addr),
      (preprocess_command env s m).state.mon.log = s.mon.log ++ ev ∧
      ((preprocess_command env s m).value = some true ↔
        ev.countP Event.is_reply = 1) ∧
      ((preprocess_command env s m).value = some false →
        ev.countP Event.is_reply = 0 ∧
        preprocess_command env s m = Result.ret false s)) ∧
    ((m.cmd.length < 2 ∨ m.cmd[1]? = some "add" ∨ m.cmd[1]? = some "remove") →
      preprocess_command env s m = Result.ret false s) := by
  refine ⟨?_, ?_, ?_⟩
  · rcases preprocess_command_outcomes env s m with h | ⟨inj, rc, rs, rdata, _, h⟩ | ⟨inj, _, h⟩
    · rw [h]; exact ⟨rfl, rfl, rfl⟩
    · rw [h]; exact ⟨rfl, rfl, rfl⟩
    · rw [h]; exact ⟨rfl, rfl, rfl⟩
  · rcases preprocess_command_outcomes env s m with
      h | ⟨inj, rc, rs, rdata, hinj, h⟩ | ⟨inj, hinj, h⟩
    · rw [h]
      refine ⟨[], by simp [Result.state], ?_, ?_⟩
      · simp [Result.value]
      · intro _; exact ⟨rfl, rfl⟩
    · rw [h]
      refine ⟨inj ++ [Event.reply_command m rc rs rdata s.paxos.last_committed],
        by simp [Result.state], ?_, ?_⟩
      · simp [Result.value, List.countP_append, countP_is_reply_zero inj hinj,
          Event.is_reply]
      · intro hv
        simp [Result.value] at hv
    · rw [h]
      refine ⟨inj, rfl, ?_, ?_⟩
      · simp [Result.value, countP_is_reply_zero inj hinj]
      · intro hv
        simp [Result.value] at hv
  · intro hcase
    rcases hcase with hlen | hadd | hrem
    · have h1 : ¬ m.cmd.length > 1 := by omega
      unfold preprocess_command
      rw [if_neg h1]
      simp [preprocess_command_finish]
    · obtain ⟨hlt, hget⟩ := List.getElem?_eq_some.mp hadd
      have h1 : m.cmd.length > 1 := hlt
      have h2 : m.cmd.getD 1 "" = "add" := by
        rw [List.getD_eq_getElem?_getD, hadd]; rfl
      unfold preprocess_command
      rw [if_pos h1, h2]
      simp
    · obtain ⟨hlt, hget⟩ := List.getElem?_eq_some.mp hrem
      have h1 : m.cmd.length > 1 := hlt
      have h2 : m.cmd.getD 1 "" = "remove" := by
        rw [List.getD_eq_getElem?_getD, hrem]; rfl
      unfold preprocess_command
      rw [if_pos h1, h2]
      simp

/-- C19 at three commands on the map `[A, B, C]`: `stat` is handled with one
reply, `add D` is not handled, and the one-token command is not handled. -/
theorem preprocess_command_read_only_witness :
    (∃ ev : List (Event String),
      (preprocess_command demoEnv demoService ⟨["mon", "stat"]⟩).state.mon.log =
        demoService.mon.log ++ ev ∧
      ((preprocess_command demoEnv demoService ⟨["mon", "stat"]⟩).value = some true ↔
        ev.countP Event.is_reply = 1) ∧
      ((preprocess_command demoEnv demoService ⟨["mon", "stat"]⟩).value = some false →
        ev.countP Event.is_reply = 0 ∧
        preprocess_command demoEnv demoService ⟨["mon", "stat"]⟩ =
          Result.ret false demoService)) ∧
    preprocess_command demoEnv demoService ⟨["mon", "add", "D"]⟩ =
      Result.ret false demoService ∧
    preprocess_command demoEnv demoService ⟨["mon"]⟩ = Result.ret false demoService :=
  ⟨(preprocess_command_read_only demoEnv demoService ⟨["mon", "stat"]⟩).2.1,
   (preprocess_command_read_only demoEnv demoService ⟨["mon", "add", "D"]⟩).2.2
     (Or.inr (Or.inl (by rfl))),
   (preprocess_command_read_only demoEnv demoService ⟨["mon"]⟩).2.2
     (Or.inl (by decide))⟩

end Ceph
